import Mathlib

/-!
Verification development for the desktop-assist supervised subprocess runner
(`desktop_assist/agent.py`, `desktop_assist/logging.py`).

The Python source is shallowly embedded: JSON values become an inductive type,
Python `dict` state becomes explicit association lists, the monotonic clock
becomes an integer parameter threaded through each decode step, and fallible
Python code (attribute errors on values of the wrong shape) returns `Except`.
String manipulation is modelled on `List Char` (a Python `str` is a sequence
of unicode code points, as is `String.data`).
-/

namespace DesktopAssist

/-! ## Characters and Python string primitives -/

/-- The double-quote character. -/
def dquote : Char := Char.ofNat 34

/-- The single-quote character. -/
def squote : Char := Char.ofNat 39

/-- Python `str.strip` whitespace test (ASCII whitespace; the unicode
whitespace extension of Python is irrelevant to the inputs modelled here). -/
def isPySpace (c : Char) : Bool :=
  c == ' ' || c == '\t' || c == '\n' || c == '\r' || c == Char.ofNat 11 || c == Char.ofNat 12

/-- Python `str.strip()` on the character list. -/
def pyStripL (cs : List Char) : List Char :=
  ((cs.dropWhile isPySpace).reverse.dropWhile isPySpace).reverse

/-- Python `str.strip()`. -/
def pyStrip (s : String) : String := String.mk (pyStripL s.data)

/-- Python `a.startswith(b)`. -/
def pyStartsWith (s p : String) : Bool := p.data.isPrefixOf s.data

/-- Python `s.split(sep)` for a single-character separator. -/
def splitOnCharL (sep : Char) : List Char → List (List Char)
  | [] => [[]]
  | c :: cs =>
    if c == sep then [] :: splitOnCharL sep cs
    else
      match splitOnCharL sep cs with
      | t :: ts => (c :: t) :: ts
      | [] => [[c]]

/-- Python `command.split("\n")`. -/
def pySplitNewline (s : String) : List String :=
  (splitOnCharL '\n' s.data).map String.mk

/-- Python `sep.join(parts)`. -/
def pyJoin (sep : String) : List String → String
  | [] => ""
  | [x] => x
  | x :: xs => String.mk (x.data ++ sep.data ++ (pyJoin sep xs).data)

/-- Python `s[:n]`. -/
def pyTake (s : String) (n : Nat) : String := String.mk (s.data.take n)

/-- Python `len(s)`. -/
def pyLen (s : String) : Nat := s.data.length

/-! ## JSON values as produced by `json.loads`

Objects are modelled as ordered field lists; `json.loads` builds a Python
`dict`, so the values reaching the decoder have distinct keys and lookups are
modelled by the first (hence only) matching binding.  Sequence and field
lists are their own inductives so that all recursion stays structural. -/

mutual
inductive Json where
  | null
  | bool (b : Bool)
  | num (q : ℚ)
  | str (s : String)
  | arr (elems : JsonList)
  | obj (fields : JsonFields)
inductive JsonList where
  | nil
  | cons (hd : Json) (tl : JsonList)
inductive JsonFields where
  | nil
  | cons (key : String) (val : Json) (tl : JsonFields)
end

/-- Build a `JsonList` from a Lean list. -/
def JsonList.ofList : List Json → JsonList
  | [] => .nil
  | x :: xs => .cons x (JsonList.ofList xs)

/-- The elements of a `JsonList`. -/
def JsonList.toList : JsonList → List Json
  | .nil => []
  | .cons x xs => x :: xs.toList

/-- Build `JsonFields` from a Lean list of key/value pairs. -/
def JsonFields.ofList : List (String × Json) → JsonFields
  | [] => .nil
  | (k, v) :: fs => .cons k v (JsonFields.ofList fs)

/-- The key/value pairs of `JsonFields`. -/
def JsonFields.toList : JsonFields → List (String × Json)
  | .nil => []
  | .cons k v fs => (k, v) :: fs.toList

/-- The keys of `JsonFields` (Python dict iteration order). -/
def JsonFields.keyList : JsonFields → List String
  | .nil => []
  | .cons k _ fs => k :: fs.keyList

/-- First binding of a key, as Python `dict` lookup (keys are unique in a
dict built by `json.loads`). -/
def JsonFields.get? : JsonFields → String → Option Json
  | .nil, _ => none
  | .cons key v tl, k => if key == k then some v else tl.get? k

/-- A JSON object literal. -/
def jobj (fs : List (String × Json)) : Json := .obj (JsonFields.ofList fs)

/-- A JSON array literal. -/
def jarr (xs : List Json) : Json := .arr (JsonList.ofList xs)

mutual
/-- Structural equality of JSON values (Python `==` on values loaded from
JSON; the Python cross-type numeric equalities `True == 1` etc. cannot arise
between values compared by this code and are not modelled). -/
def Json.beq : Json → Json → Bool
  | .null, .null => true
  | .bool a, .bool b => a == b
  | .num a, .num b => a == b
  | .str a, .str b => a == b
  | .arr xs, .arr ys => JsonList.beq xs ys
  | .obj fs, .obj gs => JsonFields.beq fs gs
  | _, _ => false
def JsonList.beq : JsonList → JsonList → Bool
  | .nil, .nil => true
  | .cons x xs, .cons y ys => Json.beq x y && JsonList.beq xs ys
  | _, _ => false
def JsonFields.beq : JsonFields → JsonFields → Bool
  | .nil, .nil => true
  | .cons k v fs, .cons l w gs => k == l && Json.beq v w && JsonFields.beq fs gs
  | _, _ => false
end

instance : BEq Json := ⟨Json.beq⟩
instance : BEq JsonList := ⟨JsonList.beq⟩
instance : BEq JsonFields := ⟨JsonFields.beq⟩

mutual
/-- Soundness of `Json.beq` (stated as a definition so the decidable-equality
instance below can use it before the theorems section). -/
def Json.eq_of_beq : ∀ a b : Json, Json.beq a b = true → a = b
  | .null, .null, _ => rfl
  | .bool _, .bool _, h => by simp [Json.beq] at h; simp [h]
  | .num _, .num _, h => by simp [Json.beq] at h; simp [h]
  | .str _, .str _, h => by simp [Json.beq] at h; simp [h]
  | .arr xs, .arr ys, h => by rw [JsonList.eq_of_beq xs ys (by simpa [Json.beq] using h)]
  | .obj fs, .obj gs, h => by rw [JsonFields.eq_of_beq fs gs (by simpa [Json.beq] using h)]
  | .null, .bool _, h => by simp [Json.beq] at h
  | .null, .num _, h => by simp [Json.beq] at h
  | .null, .str _, h => by simp [Json.beq] at h
  | .null, .arr _, h => by simp [Json.beq] at h
  | .null, .obj _, h => by simp [Json.beq] at h
  | .bool _, .null, h => by simp [Json.beq] at h
  | .bool _, .num _, h => by simp [Json.beq] at h
  | .bool _, .str _, h => by simp [Json.beq] at h
  | .bool _, .arr _, h => by simp [Json.beq] at h
  | .bool _, .obj _, h => by simp [Json.beq] at h
  | .num _, .null, h => by simp [Json.beq] at h
  | .num _, .bool _, h => by simp [Json.beq] at h
  | .num _, .str _, h => by simp [Json.beq] at h
  | .num _, .arr _, h => by simp [Json.beq] at h
  | .num _, .obj _, h => by simp [Json.beq] at h
  | .str _, .null, h => by simp [Json.beq] at h
  | .str _, .bool _, h => by simp [Json.beq] at h
  | .str _, .num _, h => by simp [Json.beq] at h
  | .str _, .arr _, h => by simp [Json.beq] at h
  | .str _, .obj _, h => by simp [Json.beq] at h
  | .arr _, .null, h => by simp [Json.beq] at h
  | .arr _, .bool _, h => by simp [Json.beq] at h
  | .arr _, .num _, h => by simp [Json.beq] at h
  | .arr _, .str _, h => by simp [Json.beq] at h
  | .arr _, .obj _, h => by simp [Json.beq] at h
  | .obj _, .null, h => by simp [Json.beq] at h
  | .obj _, .bool _, h => by simp [Json.beq] at h
  | .obj _, .num _, h => by simp [Json.beq] at h
  | .obj _, .str _, h => by simp [Json.beq] at h
  | .obj _, .arr _, h => by simp [Json.beq] at h
/-- Soundness of `JsonList.beq`. -/
def JsonList.eq_of_beq : ∀ a b : JsonList, JsonList.beq a b = true → a = b
  | .nil, .nil, _ => rfl
  | .cons x xs, .cons y ys, h => by
    have h' := h
    simp [JsonList.beq] at h'
    rw [Json.eq_of_beq x y h'.1, JsonList.eq_of_beq xs ys h'.2]
  | .nil, .cons _ _, h => by simp [JsonList.beq] at h
  | .cons _ _, .nil, h => by simp [JsonList.beq] at h
/-- Soundness of `JsonFields.beq`. -/
def JsonFields.eq_of_beq : ∀ a b : JsonFields, JsonFields.beq a b = true → a = b
  | .nil, .nil, _ => rfl
  | .cons k v fs, .cons l w gs, h => by
    have h' := h
    simp [JsonFields.beq] at h'
    rw [h'.1.1, Json.eq_of_beq v w h'.1.2, JsonFields.eq_of_beq fs gs h'.2]
  | .nil, .cons _ _ _, h => by simp [JsonFields.beq] at h
  | .cons _ _ _, .nil, h => by simp [JsonFields.beq] at h
end

mutual
/-- Reflexivity of `Json.beq`. -/
def Json.beq_refl : ∀ a : Json, Json.beq a a = true
  | .null => rfl
  | .bool b => by simp [Json.beq]
  | .num q => by simp [Json.beq]
  | .str s => by simp [Json.beq]
  | .arr xs => by simpa [Json.beq] using JsonList.beq_refl xs
  | .obj fs => by simpa [Json.beq] using JsonFields.beq_refl fs
/-- Reflexivity of `JsonList.beq`. -/
def JsonList.beq_refl : ∀ a : JsonList, JsonList.beq a a = true
  | .nil => rfl
  | .cons x xs => by simp [JsonList.beq, Json.beq_refl x, JsonList.beq_refl xs]
/-- Reflexivity of `JsonFields.beq`. -/
def JsonFields.beq_refl : ∀ a : JsonFields, JsonFields.beq a a = true
  | .nil => rfl
  | .cons k v fs => by simp [JsonFields.beq, Json.beq_refl v, JsonFields.beq_refl fs]
end

instance : DecidableEq Json := fun a b =>
  if h : Json.beq a b = true then .isTrue (Json.eq_of_beq a b h)
  else .isFalse fun he => h (he ▸ Json.beq_refl a)

instance : LawfulBEq Json where
  eq_of_beq := fun h => Json.eq_of_beq _ _ h
  rfl := fun {a} => Json.beq_refl a

/-- Exceptions the embedded Python code can raise. -/
inductive PyErr where
  | attributeError
  | typeError
  deriving Repr, DecidableEq

/-- Python truthiness of a JSON-shaped value. -/
def pyTruthy : Json → Bool
  | .null => false
  | .bool b => b
  | .num q => decide (q ≠ 0)
  | .str s => !s.data.isEmpty
  | .arr .nil => false
  | .arr (.cons _ _) => true
  | .obj .nil => false
  | .obj (.cons _ _ _) => true

/-- Decimal rendering of a natural number (tail-recursive with fuel,
mirroring ordinary decimal notation). -/
def natDigitsCore : Nat → Nat → List Char → List Char
  | 0, _, acc => acc
  | fuel + 1, n, acc =>
    let acc' := Char.ofNat (48 + n % 10) :: acc
    if n / 10 == 0 then acc' else natDigitsCore fuel (n / 10) acc'

/-- Decimal digits of a natural number, most significant first. -/
def natDigits (n : Nat) : List Char := natDigitsCore (n + 1) n []

/-- Decimal rendering of an integer, as Python `repr` of an `int`. -/
def intDigits (n : Int) : List Char :=
  if n < 0 then '-' :: natDigits n.natAbs else natDigits n.natAbs

/-- Python `str()` applied to a JSON-shaped value.  Integer-valued numbers
render in decimal; the float `repr` of non-integral numbers is not modelled
(no claim depends on it) and is rendered as an exact fraction; containers
are rendered only as placeholders. -/
def pyStr : Json → String
  | .str s => s
  | .null => "None"
  | .bool true => "True"
  | .bool false => "False"
  | .num q =>
    if q.den == 1 then String.mk (intDigits q.num)
    else String.mk (intDigits q.num ++ '/' :: natDigits q.den)
  | .arr _ => "[...]"
  | .obj _ => "\x7b...\x7d"

/-- Python `value.get(key, default)`: succeeds on an object (dict), raises
`AttributeError` on every other value. -/
def pyGet (j : Json) (k : String) (dflt : Json) : Except PyErr Json :=
  match j with
  | .obj fs => .ok ((fs.get? k).getD dflt)
  | _ => .error .attributeError

/-- Python `for x in value`: lists yield elements, strings yield
one-character strings, dicts yield their keys, everything else raises
`TypeError`. -/
def pyIter : Json → Except PyErr (List Json)
  | .arr xs => .ok xs.toList
  | .str s => .ok (s.data.map fun c => .str (String.mk [c]))
  | .obj fs => .ok (fs.keyList.map Json.str)
  | _ => .error .typeError

/-! ## `agent.py`: `_truncate` and `_format_command` -/

/-- `_truncate(text, max_len)` from `agent.py`: strip, and append `"..."`
after cutting to `max_len` characters when the stripped text is longer. -/
def _truncate (text : String) (maxLen : Nat := 200) : String :=
  let text := pyStrip text
  if pyLen text ≤ maxLen then text
  else String.mk ((text.data.take maxLen) ++ "...".data)

/-- The boilerplate filter inside `_format_command`: a stripped line is kept
as a "call" when it is non-empty and does not start with `from `, `import `,
`python`, a double quote or a single quote. -/
def isCallLine (t : String) : Bool :=
  !t.data.isEmpty &&
    !(pyStartsWith t "from " || pyStartsWith t "import " || pyStartsWith t "python" ||
      pyStartsWith t (String.mk [dquote]) || pyStartsWith t (String.mk [squote]))

/-- The call lines extracted from a (stripped) `python3 -c` style command. -/
def extractCalls (command : String) : List String :=
  (pySplitNewline command).filterMap fun ln =>
    let t := pyStrip ln
    if isCallLine t then some t else none

/-- `_format_command(command)` from `agent.py`.  `exe` is `sys.executable`,
an external value of the interpreter. -/
def _format_command (exe : String) (command : String) : String :=
  let command := pyStrip command
  if pyStartsWith command "python3 -c" || pyStartsWith command "python -c" ||
      pyStartsWith command exe then
    let calls := extractCalls command
    if !calls.isEmpty then pyJoin " ; " calls
    else _truncate command 120
  else _truncate command 120

/-! ## `agent.py`: the stream-JSON decoder `_process_stream_line`

The decoder's mutable state (`tool_start_times`, `step_counter`) becomes an
explicit state record; `time.monotonic()` becomes the integer parameter
`now` supplied per line (the clock is external input).  Events forwarded to
the session logger are collected as a list of emissions; writes to stderr
(the live terminal feedback) carry no state and are not modelled, except
that computing a display summary can raise exactly where the Python does. -/

/-- The decoder state threaded through `_process_stream_line` calls. -/
structure DecState where
  toolStartTimes : List (Json × Int)
  stepCounter : Nat

/-- Python dict assignment `m[k] = v` (replaces an existing binding in place,
otherwise appends). -/
def dictSet (m : List (Json × Int)) (k : Json) (v : Int) : List (Json × Int) :=
  if m.any fun p => p.1 == k then m.map fun p => if p.1 == k then (k, v) else p
  else m ++ [(k, v)]

/-- Python `m.pop(k, None)`: the removed value (if any) and the remaining
dict. -/
def dictPop (m : List (Json × Int)) (k : Json) : Option Int × List (Json × Int) :=
  match m.find? fun p => p.1 == k with
  | some p => (some p.2, m.filter fun q => !(q.1 == k))
  | none => (none, m)

/-- One event forwarded to the session logger by the decoder. -/
inductive LogEmit where
  | toolCall (tool : Json) (toolId : Json) (detail : Json)
  | toolResult (toolId : Json) (isError : Json) (content : Json) (elapsed : Option Int)
  | text (t : String)

/-- One assistant-message content block (`tool_use` / `text`). -/
def processAssistantBlock (exe : String) (block : Json) (now : Int) (st : DecState) :
    Except PyErr (List LogEmit × DecState) := do
  let blockType ← pyGet block "type" .null
  if blockType == .str "tool_use" then
    let toolName ← pyGet block "name" (.str "?")
    let toolId ← pyGet block "id" (.str "")
    let toolInput ← pyGet block "input" (jobj [])
    let command ← pyGet toolInput "command" (.str "")
    let st' : DecState :=
      { toolStartTimes := dictSet st.toolStartTimes toolId now
        stepCounter := st.stepCounter + 1 }
    -- the display summary: `_format_command(command)` raises AttributeError
    -- when a truthy `command` is not a string (`.strip()` on a non-str)
    if pyTruthy command then
      match command with
      | .str c =>
        let _ := _format_command exe c
        pure ([LogEmit.toolCall toolName toolId command], st')
      | _ => throw .attributeError
    else do
      let fp ← pyGet toolInput "file_path" .null
      let detail := if pyTruthy fp then fp else Json.null
      pure ([LogEmit.toolCall toolName toolId detail], st')
  else if blockType == .str "text" then
    let t ← pyGet block "text" (.str "")
    match t with
    | .str s =>
      let s := pyStrip s
      if !s.data.isEmpty then pure ([LogEmit.text s], st) else pure ([], st)
    | _ => throw .attributeError
  else
    pure ([], st)

/-- One user-message content block (`tool_result`). -/
def processUserBlock (block : Json) (now : Int) (st : DecState) :
    Except PyErr (List LogEmit × DecState) := do
  let blockType ← pyGet block "type" .null
  if blockType == .str "tool_result" then
    let toolId ← pyGet block "tool_use_id" (.str "")
    let isError ← pyGet block "is_error" (.bool false)
    let content ← pyGet block "content" (.str "")
    let popped := dictPop st.toolStartTimes toolId
    let elapsed : Option Int := popped.1.map fun s => now - s
    pure ([LogEmit.toolResult toolId isError content elapsed],
      { st with toolStartTimes := popped.2 })
  else
    pure ([], st)

/-- Fold a block processor over the content blocks of one message. -/
def processBlocks (f : Json → DecState → Except PyErr (List LogEmit × DecState))
    (blocks : List Json) (st : DecState) : Except PyErr (List LogEmit × DecState) :=
  match blocks with
  | [] => .ok ([], st)
  | b :: bs => do
    let (es, st') ← f b st
    let (es', st'') ← processBlocks f bs st'
    pure (es ++ es', st'')

/-- The outcome of `json.loads` on one (stripped) stdout line, supplied as
input to the decoder: the line was blank, was not valid JSON
(`json.JSONDecodeError`), or parsed to a JSON value. -/
inductive StreamLine where
  | blank
  | invalid (raw : String)
  | parsed (j : Json)

/-- `_process_stream_line` from `agent.py`, embedded over the parse outcome
of one line.  Returns the final-result value when a `result` event is seen,
the session-log emissions, and the updated decoder state; errs exactly where
the Python raises. -/
def _process_stream_line (exe : String) (line : StreamLine) (now : Int) (st : DecState) :
    Except PyErr (Option Json × List LogEmit × DecState) := do
  match line with
  | .blank => pure (none, [], st)
  | .invalid _ => pure (none, [], st)
  | .parsed data =>
    let msgType ← pyGet data "type" .null
    if msgType == .str "result" then
      let isErr ← pyGet data "is_error" .null
      let subtype ← pyGet data "subtype" .null
      if pyTruthy isErr || subtype == .str "error" then
        let r ← pyGet data "result" (.str "Unknown error")
        pure (some (.str ("[error] " ++ pyStr r)), [], st)
      else
        let r ← pyGet data "result" (.str "")
        pure (some r, [], st)
    else do
      let msg ← pyGet data "message" (jobj [])
      let contentBlocks ← pyGet msg "content" (jarr [])
      if msgType == .str "assistant" then
        let blocks ← pyIter contentBlocks
        let (es, st') ← processBlocks (processAssistantBlock exe · now ·) blocks st
        pure (none, es, st')
      else if msgType == .str "user" then
        let blocks ← pyIter contentBlocks
        let (es, st') ← processBlocks (processUserBlock · now ·) blocks st
        pure (none, es, st')
      else
        pure (none, [], st)

/-! ## Spec-modelled parts absent from `src/desktop_assist/agent.py`

The repository's tests (`tests/test_agent.py`) and CLI entry point call
`run_agent(..., timeout=...)`, `_process_stream_line(..., usage=...)` and
`agent._fmt_tokens`, none of which appear in `src/desktop_assist/agent.py`;
that code is modelled here from the specification. -/

/-- Modelled from the spec: the token-count display formatter `_fmt_tokens`
(missing from `src/desktop_assist/agent.py`; exercised by the repository's
tests).  Spec: "token counts are rendered for display using a fixed-point
compaction (e.g. 15200 → "15.2k"); values under 1000 render as-is".  One
decimal place is kept, rounding half up (the rounding mode is unobservable
on the spec's pinned examples). -/
def _fmt_tokens (n : Nat) : String :=
  if n < 1000 then String.mk (natDigits n)
  else
    let tenths := (n * 10 + 500) / 1000
    String.mk (natDigits (tenths / 10) ++ '.' :: natDigits (tenths % 10) ++ ['k'])

/-- Modelled from the spec: `UsageSnapshot` — "optional fields (cost,
input/output token counts, turn count, upstream session id) captured only
from the terminal `Result` event; absent fields mean not reported, never
zero-by-default".  The usage-capture code is missing from
`src/desktop_assist/agent.py` (the tests pass a `usage` dict into
`_process_stream_line` and read these five keys back). -/
structure UsageSnapshot where
  cost_usd : Option Json
  input_tokens : Option Json
  output_tokens : Option Json
  num_turns : Option Json
  session_id : Option Json

/-- Modelled from the spec: populate the usage snapshot from the terminal
"result" event — a field is captured exactly when the event carries it. -/
def captureUsage (data : Json) : UsageSnapshot :=
  match data with
  | .obj fs =>
    ⟨fs.get? "cost_usd", fs.get? "input_tokens", fs.get? "output_tokens",
      fs.get? "num_turns", fs.get? "session_id"⟩
  | _ => ⟨none, none, none, none, none⟩

/-- Modelled from the spec: the terminal outcome selection of `run_agent`
with the optional wall-clock timeout (the `timeout` parameter is missing
from `src/desktop_assist/agent.py`; the repository's tests call
`run_agent(..., timeout=1.0)` and assert a `[timeout]`-prefixed result
mentioning the limit).  Spec: "a timer (optional; absent means unbounded)
races against stdout completion"; failure outcomes are tagged `[error] ...`
or `[timeout] ...` and pattern-matched on a fixed prefix.
`stdoutCompleted` is false exactly when the timer elapsed before the
child's stdout completed; the non-timeout selection is the one of
`agent.py` lines 495-505. -/
def runAgentOutcome (timeoutLimit : Option Nat) (stdoutCompleted : Bool)
    (finalResult : Option String) (returncode : Int) (stderrText : String) : String :=
  match timeoutLimit, stdoutCompleted with
  | some t, false =>
    "[timeout] Agent run exceeded " ++ String.mk (natDigits t) ++ "s wall-clock limit."
  | _, _ =>
    match finalResult with
    | some r => r
    | none =>
      if returncode != 0 then
        "[error] Claude CLI exited with code " ++ String.mk (intDigits returncode) ++
          ". stderr: " ++ stderrText
      else "[error] Empty response from Claude CLI."

/-! ## `agent.py`: finalization of `run_agent` (lines 451-512) -/

/-- One call made on the session logger while finalizing a run. -/
inductive LogAction where
  | done (steps : Nat) (elapsedS : Int) (resultPreview : String)
  | close

/-- The tail of `run_agent` (`agent.py` lines 451-512): how the run is
finalized after the streaming loop, given whether a `KeyboardInterrupt`
arrived during it, the final result decoded from the stream, the child's
exit code and its captured stderr.  Returns the sequence of session-log
calls (empty when logging is disabled) and the string `run_agent` returns.
`elapsedS` is the monotonic elapsed time at finalization. -/
def runAgentFinalize (logEnabled : Bool) (interrupted : Bool)
    (finalResult : Option String) (returncode : Int) (stderrText : String)
    (steps : Nat) (elapsedS : Int) : List LogAction × String :=
  if interrupted then
    ((if logEnabled then [.done steps elapsedS "[interrupted]", .close] else []),
      "[error] Agent interrupted by user.")
  else
    let result :=
      match finalResult with
      | some r => r
      | none =>
        if returncode != 0 then
          "[error] Claude CLI exited with code " ++ String.mk (intDigits returncode) ++
            ". stderr: " ++ stderrText
        else "[error] Empty response from Claude CLI."
    ((if logEnabled then [.done steps elapsedS result, .close] else []), result)

/-! ## `logging.py`: persisted session records

`SessionLogger._write` serializes one flat JSON object per call
(`json.dumps(fields) + "\n"`, flushed).  Records are flat objects of
scalars, so the persisted value type is the scalar sub-grammar. -/

/-- A JSON scalar as persisted by `SessionLogger`. -/
inductive JVal where
  | null
  | bool (b : Bool)
  | int (n : Int)
  /-- A float whose exact value is `mant / 10^frac`, rendered with exactly
  `frac` digits after the point.  Python's float `repr` prints the shortest
  decimal denoting the float; for the magnitudes and (two-decimal-rounded)
  precisions the logger writes, that is this decimal. -/
  | dec (mant : Int) (frac : Nat)
  | str (s : String)
  deriving Repr, DecidableEq

/-- One persisted record: an ordered flat JSON object (Python dicts keep
insertion order; the logger's records have pairwise-distinct keys). -/
abbrev SessionRecord := List (String × JVal)

/-- Lower-case hexadecimal digit. -/
def hexDigitChar (n : Nat) : Char :=
  if n < 10 then Char.ofNat (48 + n) else Char.ofNat (87 + n)

/-- How `json.dumps` (default `ensure_ascii=True`) renders one character of
a string: characters in the printable ASCII range stand for themselves, the
two JSON metacharacters and the named control characters use two-character
escapes, everything else a `\uXXXX` escape (code points at or above 0x10000
would use surrogate pairs and are excluded by hypothesis where it matters). -/
def escapeChar (c : Char) : List Char :=
  if c == dquote then ['\\', dquote]
  else if c == '\\' then ['\\', '\\']
  else if c == '\n' then ['\\', 'n']
  else if c == '\t' then ['\\', 't']
  else if c == '\r' then ['\\', 'r']
  else if c == Char.ofNat 8 then ['\\', 'b']
  else if c == Char.ofNat 12 then ['\\', 'f']
  else if 32 ≤ c.toNat && c.toNat ≤ 126 then [c]
  else
    ['\\', 'u', hexDigitChar (c.toNat / 4096 % 16), hexDigitChar (c.toNat / 256 % 16),
      hexDigitChar (c.toNat / 16 % 16), hexDigitChar (c.toNat % 16)]

/-- `json.dumps` rendering of a string body. -/
def escapeStrL : List Char → List Char
  | [] => []
  | c :: cs => escapeChar c ++ escapeStrL cs

/-- Left-pad a digit string with zeros to a given width. -/
def padZeros (len : Nat) (ds : List Char) : List Char :=
  List.replicate (len - ds.length) '0' ++ ds

/-- `json.dumps` rendering of one scalar. -/
def dumpJVal : JVal → List Char
  | .null => "null".data
  | .bool true => "true".data
  | .bool false => "false".data
  | .int n => intDigits n
  | .dec m f =>
    (if m < 0 then ['-'] else []) ++ natDigits (m.natAbs / 10 ^ f) ++
      '.' :: padZeros f (natDigits (m.natAbs % 10 ^ f))
  | .str s => dquote :: escapeStrL s.data ++ [dquote]

/-- `json.dumps` rendering of one `key: value` member (default separators). -/
def dumpField (kv : String × JVal) : List Char :=
  dquote :: escapeStrL kv.1.data ++ dquote :: ':' :: ' ' :: dumpJVal kv.2

/-- `json.dumps` rendering of the member list. -/
def dumpFields : SessionRecord → List Char
  | [] => []
  | [kv] => dumpField kv
  | kv :: rest => dumpField kv ++ ',' :: ' ' :: dumpFields rest

/-- `json.dumps` of one flat record. -/
def dumpRecord (r : SessionRecord) : List Char :=
  '\x7b' :: dumpFields r ++ ['\x7d']

/-- The bytes `SessionLogger` appends to the log file over a run: one
serialized record plus a newline per `_write` (each write is flushed, so the
file content is exactly this concatenation at every point). -/
def renderLog : List SessionRecord → List Char
  | [] => []
  | r :: rs => dumpRecord r ++ '\n' :: renderLog rs

/-! ### `json.loads` on logger-written lines

`replay_session` feeds each non-blank stripped line to `json.loads`.  The
parser below implements the JSON grammar restricted to flat objects of
scalars — the only shape `SessionLogger` writes, hence the only shape the
round-trip theorem evaluates it on. -/

/-- ASCII decimal digit test. -/
def isDigitCh (c : Char) : Bool := 48 ≤ c.toNat && c.toNat ≤ 57

/-- Value of one hexadecimal digit. -/
def hexVal (c : Char) : Option Nat :=
  if 48 ≤ c.toNat && c.toNat ≤ 57 then some (c.toNat - 48)
  else if 97 ≤ c.toNat && c.toNat ≤ 102 then some (c.toNat - 87)
  else if 65 ≤ c.toNat && c.toNat ≤ 70 then some (c.toNat - 55)
  else none

/-- JSON whitespace skipping. -/
def skipWs : List Char → List Char
  | c :: cs => if c == ' ' || c == '\t' || c == '\n' || c == '\r' then skipWs cs else c :: cs
  | [] => []

/-- Decode the named two-character escapes of JSON (everything except
`\uXXXX`). -/
def escDecode (e : Char) : Option Char :=
  if e == dquote then some dquote
  else if e == '\\' then some '\\'
  else if e == '/' then some '/'
  else if e == 'n' then some '\n'
  else if e == 't' then some '\t'
  else if e == 'r' then some '\r'
  else if e == 'b' then some (Char.ofNat 8)
  else if e == 'f' then some (Char.ofNat 12)
  else none

/-- Parse a JSON string body up to its closing quote (strict mode: raw
control characters are rejected, as `json.loads` does). -/
def parseStringBody : List Char → Option (List Char × List Char)
  | [] => none
  | c :: cs =>
    if c == dquote then some ([], cs)
    else if c == '\\' then
      match cs with
      | 'u' :: h1 :: h2 :: h3 :: h4 :: cs' =>
        match hexVal h1, hexVal h2, hexVal h3, hexVal h4 with
        | some a, some b, some c', some d =>
          (parseStringBody cs').map fun p =>
            (Char.ofNat (4096 * a + 256 * b + 16 * c' + d) :: p.1, p.2)
        | _, _, _, _ => none
      | e :: cs' =>
        match escDecode e with
        | some ch => (parseStringBody cs').map fun p => (ch :: p.1, p.2)
        | none => none
      | [] => none
    else if c.toNat < 32 then none
    else (parseStringBody cs).map fun p => (c :: p.1, p.2)

/-- Take a maximal run of decimal digits. -/
def takeDigits : List Char → List Char × List Char
  | [] => ([], [])
  | c :: cs =>
    if isDigitCh c then
      match takeDigits cs with
      | (ds, r) => (c :: ds, r)
    else ([], c :: cs)

/-- Numeric value of a digit string. -/
def digitsVal (ds : List Char) : Nat := ds.foldl (fun a c => a * 10 + (c.toNat - 48)) 0

/-- Parse the digits of a JSON number after an optional sign (exponent
syntax is never emitted by the logger and not modelled). -/
def parseNumTail (neg : Bool) (cs : List Char) : Option (JVal × List Char) :=
  let p := takeDigits cs
  if p.1.isEmpty then none
  else
    match p.2 with
    | c :: rest' =>
      if c == '.' then
        let q := takeDigits rest'
        if q.1.isEmpty then none
        else
          let m : Int := ((digitsVal p.1 * 10 ^ q.1.length + digitsVal q.1 : Nat) : Int)
          some (.dec (if neg then -m else m) q.1.length, q.2)
      else
        let n : Int := ((digitsVal p.1 : Nat) : Int)
        some (.int (if neg then -n else n), c :: rest')
    | [] =>
      let n : Int := ((digitsVal p.1 : Nat) : Int)
      some (.int (if neg then -n else n), [])

/-- Parse one scalar JSON value. -/
def parseJVal (cs : List Char) : Option (JVal × List Char) :=
  match cs with
  | [] => none
  | c :: rest =>
    if c == 'n' then
      match rest with
      | 'u' :: 'l' :: 'l' :: r => some (.null, r)
      | _ => none
    else if c == 't' then
      match rest with
      | 'r' :: 'u' :: 'e' :: r => some (.bool true, r)
      | _ => none
    else if c == 'f' then
      match rest with
      | 'a' :: 'l' :: 's' :: 'e' :: r => some (.bool false, r)
      | _ => none
    else if c == '-' then parseNumTail true rest
    else if c == dquote then
      (parseStringBody rest).map fun p => (.str (String.mk p.1), p.2)
    else if isDigitCh c then parseNumTail false (c :: rest)
    else none

/-- Parse the member list of a flat object (fuel-bounded; each member
consumes input, so input length is enough fuel). -/
def parseMembers : Nat → List Char → Option (SessionRecord × List Char)
  | 0, _ => none
  | fuel + 1, cs =>
    match skipWs cs with
    | c :: cs' =>
      if c == dquote then
        match parseStringBody cs' with
        | some (k, rest) =>
          (match skipWs rest with
          | d :: rest' =>
            if d == ':' then
              match parseJVal (skipWs rest') with
              | some (v, rest'') =>
                (match skipWs rest'' with
                | e :: rest3 =>
                  if e == ',' then
                    (parseMembers fuel rest3).map fun p => ((String.mk k, v) :: p.1, p.2)
                  else some ([(String.mk k, v)], e :: rest3)
                | [] => some ([(String.mk k, v)], []))
              | none => none
            else none
          | [] => none)
        | none => none
      else none
    | [] => none

/-- `json.loads` of one logger-written line: a flat object of scalars with
nothing but whitespace around it. -/
def parseObjLine (cs : List Char) : Option SessionRecord :=
  match skipWs cs with
  | c :: r1 =>
    if c == '\x7b' then
      match skipWs r1 with
      | d :: r2 =>
        if d == '\x7d' then
          match skipWs r2 with
          | [] => some []
          | _ => none
        else
          match parseMembers (r1.length + 1) (d :: r2) with
          | some (fs, rest) =>
            (match rest with
            | e :: r3 =>
              if e == '\x7d' then
                match skipWs r3 with
                | [] => some fs
                | _ => none
              else none
            | [] => none)
          | none => none
      | [] => none
    else none
  | [] => none

/-- `replay_session` applied to the raw lines of one log file: strip each
line, skip blank lines, `json.loads` the rest in order; a line that fails to
parse raises out of `replay_session` (modelled as `none`). -/
def replayLines : List (List Char) → Option (List SessionRecord)
  | [] => some []
  | ln :: lns =>
    let s := pyStripL ln
    if s.isEmpty then replayLines lns
    else
      match parseObjLine s with
      | some r => (replayLines lns).map fun rs => r :: rs
      | none => none

/-- `replay_session` from `logging.py` on a file's content. -/
def replay_session (content : List Char) : Option (List SessionRecord) :=
  replayLines (splitOnCharL '\n' content)

/-! ### Validity notions for the round trip

Python `json.dumps` writes a code point at or above 0x10000 as a surrogate
pair; such (astral) characters are the one exclusion of the round-trip
hypotheses. -/

/-- A character below the surrogate-pair range. -/
def okChar (c : Char) : Bool := c.toNat < 65536

/-- A string of such characters. -/
def okStringB (s : String) : Bool := s.data.all okChar

/-- A persistable scalar: strings have no astral characters, decimals have
at least one fractional digit (as every float prints). -/
def okJVal : JVal → Bool
  | .str s => okStringB s
  | .dec _ f => 1 ≤ f
  | _ => true

/-- A persistable record. -/
def okRecord (r : SessionRecord) : Bool :=
  r.all fun kv => okStringB kv.1 && okJVal kv.2

/-- The character stream after a JSON number stops it: end of input or a
character that is neither a digit nor a decimal point. -/
def numStop : List Char → Bool
  | [] => true
  | c :: _ => !isDigitCh c && !(c == '.')

/-! ### The `SessionLogger` public API -/

/-- `_truncate` from `logging.py` (preview cap, default 500; unlike the
`agent.py` `_truncate` it does not strip). -/
def truncPreview (s : String) (maxLen : Nat := 500) : String :=
  if pyLen s ≤ maxLen then s else String.mk (s.data.take maxLen ++ "...".data)

/-- Python `round(x, 2)` on the exact value of the argument, then dropping a
trailing zero digit exactly as the resulting float prints: the nearest
multiple of 1/100 with ties to even (the binary representation error of the
float argument is below the modelled precision). -/
def round2 (q : ℚ) : JVal :=
  let x := q * 100
  let fl : Int := Int.floor x
  let r : ℚ := x - (fl : ℚ)
  let n : Int :=
    if r < 1 / 2 then fl
    else if 1 / 2 < r then fl + 1
    else if fl % 2 == 0 then fl else fl + 1
  if n % 10 == 0 then .dec (n / 10) 1 else .dec n 2

/-- One `SessionLogger` append call, paired at run time with the wall-clock
timestamp string `_write` attaches. -/
inductive LogCall where
  | start (prompt : String) (model : Option String) (maxTurns : Int)
  | resume (previousSession : String)
  | toolCall (toolName : String) (toolId : String) (command : Option String)
  | toolResult (toolId : String) (isError : Bool) (output : String) (elapsed : Option ℚ)
  | text (t : String)
  | done (steps : Int) (elapsed : ℚ) (result : String)

/-- The record one `SessionLogger` call appends (`logging.py` lines 51-101;
`_write` adds the `timestamp` field last).  `step` is the logger's running
step counter after `log_tool_call` has incremented it. -/
def recordOf (step : Nat) (ts : String) : LogCall → SessionRecord
  | .start p m mt =>
    [("event", .str "start"), ("prompt", .str p),
      ("model", match m with | some s => .str s | none => .null),
      ("max_turns", .int mt), ("timestamp", .str ts)]
  | .resume prev =>
    [("event", .str "resume"), ("previous_session", .str prev), ("timestamp", .str ts)]
  | .toolCall tn tid cmd =>
    [("event", .str "tool_call"), ("step", .int step), ("tool", .str tn),
      ("tool_id", .str tid),
      ("command",
        match cmd with
        | some c => if c.data.isEmpty then .null else .str (truncPreview c)
        | none => .null),
      ("timestamp", .str ts)]
  | .toolResult tid isErr out el =>
    [("event", .str "tool_result"), ("step", .int step), ("tool_id", .str tid),
      ("is_error", .bool isErr),
      ("elapsed_s", match el with | some q => round2 q | none => .null),
      ("output_preview", .str (truncPreview out)), ("timestamp", .str ts)]
  | .text t =>
    [("event", .str "text"), ("text", .str (truncPreview t)), ("timestamp", .str ts)]
  | .done steps el res =>
    [("event", .str "done"), ("steps", .int steps), ("elapsed_s", round2 el),
      ("result_preview", .str (truncPreview res)), ("timestamp", .str ts)]

/-- The records a sequence of `SessionLogger` calls appends, threading the
`_step` counter (incremented by each `log_tool_call`). -/
def sessionRecords (step : Nat) : List (LogCall × String) → List SessionRecord
  | [] => []
  | (c, ts) :: rest =>
    let step' := match c with | .toolCall _ _ _ => step + 1 | _ => step
    recordOf step' ts c :: sessionRecords step' rest

/-- All string arguments of one logger call (and its timestamp) are free of
astral characters. -/
def okCall : LogCall × String → Bool
  | (.start p m _, ts) =>
    okStringB p && (match m with | some s => okStringB s | none => true) && okStringB ts
  | (.resume prev, ts) => okStringB prev && okStringB ts
  | (.toolCall tn tid cmd, ts) =>
    okStringB tn && okStringB tid &&
      (match cmd with | some c => okStringB c | none => true) && okStringB ts
  | (.toolResult tid _ out _, ts) => okStringB tid && okStringB out && okStringB ts
  | (.text t, ts) => okStringB t && okStringB ts
  | (.done _ _ res, ts) => okStringB res && okStringB ts

/-! ## `logging.py`: `list_sessions` (lines 124-159)

A session directory is modelled as its file listing: each entry is a file
name plus its readable content as a list of per-line `json.loads` outcomes
(`StreamLine`, as for the stream decoder); `none` content models a file
whose open/read raises `OSError`. -/

/-- One summary dict built by `list_sessions`. -/
structure SessionSummary where
  id : String
  prompt : Json
  steps : Json
  elapsed_s : Json
  status : String
  path : String
  deriving DecidableEq

/-- The initial summary for a file stem (the `path` field carries the file
name; the directory prefix adds nothing and is left off). -/
def initSummary (stem : String) : SessionSummary :=
  ⟨stem, .str "?", .num 0, .num 0, "unknown", String.mk (stem.data ++ ".jsonl".data)⟩

/-- The per-line scan inside `list_sessions`: blank lines are skipped, a
line that fails `json.loads` stops the scan of this file (the
`json.JSONDecodeError` is caught and passed over), `start` and `done`
records update the summary — but `evt.get` on a line holding a non-object
JSON value raises `AttributeError`, which `list_sessions` does not catch. -/
def scanSessionLines : List StreamLine → SessionSummary → Except PyErr SessionSummary
  | [], s => .ok s
  | .blank :: rest, s => scanSessionLines rest s
  | .invalid _ :: _, s => .ok s
  | .parsed j :: rest, s =>
    match j with
    | .obj fs =>
      let evtType := (fs.get? "event").getD .null
      if evtType == .str "start" then
        scanSessionLines rest { s with prompt := (fs.get? "prompt").getD (.str "?") }
      else if evtType == .str "done" then
        scanSessionLines rest
          { s with steps := (fs.get? "steps").getD (.num 0),
                   elapsed_s := (fs.get? "elapsed_s").getD (.num 0), status := "done" }
      else scanSessionLines rest s
    | _ => .error .attributeError

/-- The status fixup after the scan: `unknown` becomes `incomplete`. -/
def fixStatus (s : SessionSummary) : SessionSummary :=
  if s.status == "unknown" then { s with status := "incomplete" } else s

/-- One directory entry: file name and readable content (`none` for a file
whose open or read raises `OSError`, which `list_sessions` catches). -/
structure SessionFile where
  name : String
  content : Option (List StreamLine)

/-- Summarize one `*.jsonl` file (the body of the `for p in sorted(...)`
loop). -/
def summarizeSession (stem : String) (content : Option (List StreamLine)) :
    Except PyErr SessionSummary := do
  let s ←
    match content with
    | none => pure (initSummary stem)
    | some lines => scanSessionLines lines (initSummary stem)
  pure (fixStatus s)

/-- Lexicographic comparison of names, as Python compares path strings. -/
def nameLe (a b : List Char) : Bool :=
  match a, b with
  | [], _ => true
  | _ :: _, [] => false
  | x :: xs, y :: ys => if x < y then true else if y < x then false else nameLe xs ys

/-- Insertion step of the descending sort. -/
def insertDesc (x : SessionFile) : List SessionFile → List SessionFile
  | [] => [x]
  | y :: ys => if nameLe y.name.data x.name.data then x :: y :: ys else y :: insertDesc x ys

/-- `sorted(..., reverse=True)` over directory entries by file name. -/
def sortFilesDesc : List SessionFile → List SessionFile
  | [] => []
  | x :: xs => insertDesc x (sortFilesDesc xs)

/-- Does a file name match the glob `*.jsonl`? -/
def isJsonlName (n : String) : Bool := ".jsonl".data.isSuffixOf n.data

/-- The stem of a `*.jsonl` file name (`Path.stem`). -/
def stemOf (n : String) : String := String.mk (n.data.take (n.data.length - 6))

/-- `list_sessions` from `logging.py`: glob the `*.jsonl` entries, visit
them in descending name order, and summarize each; an uncaught exception
from one file's scan propagates out of the whole listing. -/
def list_sessions (dir : List SessionFile) : Except PyErr (List SessionSummary) :=
  ((sortFilesDesc (dir.filter fun f => isJsonlName f.name)).mapM
    fun f => summarizeSession (stemOf f.name) f.content)

/-! ## `logging.py`: `build_resume_prompt` (lines 177-220)

`build_resume_prompt` folds over the records `replay_session` returned; it
is embedded here over the decoded event list (`Json` values, as the
`dict`s `json.loads` yields). -/

/-- The fold state of `build_resume_prompt`'s single pass. -/
structure ResumeAcc where
  originalPrompt : String
  model : Option Json
  actionSummaries : List String
  lastStatus : String

/-- One event of the single pass in `build_resume_prompt`.  `evt.get` on a
non-object raises. -/
def resumeStep (acc : ResumeAcc) (evt : Json) : Except PyErr ResumeAcc :=
  match evt with
  | .obj fs =>
    let et := (fs.get? "event").getD .null
    if et == .str "start" then
      .ok { acc with
        originalPrompt := pyStr ((fs.get? "prompt").getD (.str ""))
        model :=
          match (fs.get? "model").getD .null with
          | .null => none
          | v => some v }
    else if et == .str "tool_call" then
      let tool := (fs.get? "tool").getD (.str "?")
      let cmd := (fs.get? "command").getD (.str "")
      let step := (fs.get? "step").getD .null
      .ok { acc with actionSummaries := acc.actionSummaries ++
        ["  - [" ++ pyStr step ++ "] " ++ pyStr tool ++ ": " ++ pyStr cmd] }
    else if et == .str "tool_result" then
      let status := if pyTruthy ((fs.get? "is_error").getD .null) then "ERROR" else "OK"
      .ok { acc with actionSummaries := acc.actionSummaries ++ ["    -> " ++ status] }
    else if et == .str "done" then
      .ok { acc with lastStatus := "completed" }
    else .ok acc
  | _ => .error .attributeError

/-- Python `xs[-n:]`: the last `n` entries (all of them when fewer). -/
def takeLast (n : Nat) (xs : List String) : List String := xs.drop (xs.length - n)

/-- The fixed instruction block appended to every resume prompt. -/
def resumeInstructions : String :=
  "Continue from where the previous session left off. " ++
    "Do NOT repeat steps that already succeeded. " ++
    "Start by taking a screenshot to see the current screen state, " ++
    "then continue working toward completing the original task."

/-- `build_resume_prompt` over the replayed events of a prior session:
extract the start info, summarize the actions, keep the last 30 summary
lines, and wrap them with the continuation instructions.  Returns
`(augmented_prompt, original_model)`. -/
def build_resume_prompt (events : List Json) : Except PyErr (String × Option Json) := do
  let acc ← events.foldlM resumeStep ⟨"", none, [], "interrupted"⟩
  let actionsText := pyJoin "\n" (takeLast 30 acc.actionSummaries)
  let augmented :=
    "RESUMING PREVIOUS SESSION (status: " ++ acc.lastStatus ++ ").\n" ++
      "Original task: " ++ acc.originalPrompt ++ "\n\n" ++
      "The previous attempt performed these actions:\n" ++ actionsText ++ "\n\n" ++
      resumeInstructions
  pure (augmented, acc.model)

/-- A `start` event as `json.loads` yields it from a logger-written log. -/
def startEvent (prompt : String) (model : Option String) : Json :=
  jobj [("event", .str "start"), ("prompt", .str prompt),
    ("model", match model with | some s => .str s | none => .null)]

/-- One tool-call/result pair as recorded in a session log. -/
structure ToolPair where
  step : Int
  tool : String
  command : String
  isError : Bool

/-- The two log events of one tool-call/result pair. -/
def pairEvents : List ToolPair → List Json
  | [] => []
  | p :: rest =>
    jobj [("event", .str "tool_call"), ("step", .num (p.step : ℚ)),
        ("tool", .str p.tool), ("command", .str p.command)] ::
      jobj [("event", .str "tool_result"), ("is_error", .bool p.isError)] ::
        pairEvents rest

/-- The transcript lines `build_resume_prompt` derives from a run of
tool-call/result pairs (two lines per pair). -/
def pairSummaries : List ToolPair → List String
  | [] => []
  | p :: rest =>
    ("  - [" ++ String.mk (intDigits p.step) ++ "] " ++ p.tool ++ ": " ++ p.command) ::
      ("    -> " ++ (if p.isError then "ERROR" else "OK")) :: pairSummaries rest

/-- A session-file line that `list_sessions` can scan without raising: a
blank line, an invalid-JSON line (its decode error is caught), or a line
holding a JSON object. -/
def isObjLine : StreamLine → Bool
  | .blank => true
  | .invalid _ => true
  | .parsed (.obj _) => true
  | .parsed _ => false

/-- A session-file line the scan steps over without stopping or raising: a
blank line or a JSON-object line. -/
def cleanLine : StreamLine → Bool
  | .blank => true
  | .invalid _ => false
  | .parsed (.obj _) => true
  | .parsed _ => false

/-- A line holding a `done` record. -/
def isDoneLine : StreamLine → Bool
  | .parsed (.obj fs) => (fs.get? "event").getD .null == .str "done"
  | _ => false

/-! ## Pending-timer bookkeeping notions used by the invariants -/

/-- The pending-timer dict holds at most one entry per tool-call id: its
keys are pairwise distinct. -/
def keysDistinct (m : List (Json × Int)) : Prop := m.Pairwise fun a b => a.1 ≠ b.1

/-- The dict after removing every binding of a key (the second component of
`dictPop`). -/
def dictRemove (m : List (Json × Int)) (k : Json) : List (Json × Int) :=
  m.filter fun q => !(q.1 == k)

/-- A stream line whose `assistant` message carries one `tool_use` block
with the given id and name (the shape of `tests/test_agent.py`). -/
def toolUseLine (toolId toolName : Json) : StreamLine :=
  .parsed (jobj [("type", .str "assistant"),
    ("message", jobj [("content", jarr [jobj [("type", .str "tool_use"),
      ("id", toolId), ("name", toolName)]])])])

/-- A stream line whose `user` message carries the matching `tool_result`
block for the given id. -/
def toolResultLine (toolId : Json) : StreamLine :=
  .parsed (jobj [("type", .str "user"),
    ("message", jobj [("content", jarr [jobj [("type", .str "tool_result"),
      ("tool_use_id", toolId)]])])])

/-! # Theorems -/

/-- C4: the token-count display formatter renders 0 as "0", 500 as "500",
1000 as "1.0k", and 15200 as "15.2k" (exact strings); every value under
1000 renders as-is (its plain decimal representation). -/
theorem C4_token_formatting :
    _fmt_tokens 0 = "0" ∧ _fmt_tokens 500 = "500" ∧ _fmt_tokens 1000 = "1.0k" ∧
      _fmt_tokens 15200 = "15.2k" ∧
      ∀ n : Nat, n < 1000 → _fmt_tokens n = String.mk (natDigits n) := by
  refine ⟨by decide, by decide, by decide, by decide, fun n h => ?_⟩
  simp [_fmt_tokens, h]

/-- Witness for C4 at a concrete value under 1000. -/
theorem C4_token_formatting_witness :
    (7 : Nat) < 1000 ∧ _fmt_tokens 7 = String.mk (natDigits 7) :=
  ⟨by decide, C4_token_formatting.2.2.2.2 7 (by decide)⟩

/-- C3: decoding a terminal "result" event captures the usage fields that
are present on the event into the usage snapshot, and leaves every absent
field absent (`none`), never defaulting it to zero. -/
theorem C3_usage_snapshot_capture (fs : JsonFields)
    (_h : fs.get? "type" = some (.str "result")) :
    (captureUsage (.obj fs)).cost_usd = fs.get? "cost_usd" ∧
      (captureUsage (.obj fs)).input_tokens = fs.get? "input_tokens" ∧
      (captureUsage (.obj fs)).output_tokens = fs.get? "output_tokens" ∧
      (captureUsage (.obj fs)).num_turns = fs.get? "num_turns" ∧
      (captureUsage (.obj fs)).session_id = fs.get? "session_id" ∧
      (fs.get? "cost_usd" = none →
        (captureUsage (.obj fs)).cost_usd = none ∧
          (captureUsage (.obj fs)).cost_usd ≠ some (.num 0)) := by
  refine ⟨rfl, rfl, rfl, rfl, rfl, fun habs => ?_⟩
  simp [captureUsage, habs]

/-- Witness for C3 on the usage-bearing result event of the repository's
tests (`cost_usd` 0.23, 15200 input tokens; `session_id` absent). -/
theorem C3_usage_snapshot_capture_witness :
    (JsonFields.ofList [("type", .str "result"), ("subtype", .str "success"),
        ("is_error", .bool false), ("result", .str "Done!"),
        ("cost_usd", .num (23 / 100)), ("input_tokens", .num 15200),
        ("output_tokens", .num 3100), ("num_turns", .num 12)]).get? "type" =
      some (.str "result") ∧
      (captureUsage (.obj (JsonFields.ofList [("type", .str "result"),
          ("subtype", .str "success"), ("is_error", .bool false),
          ("result", .str "Done!"), ("cost_usd", .num (23 / 100)),
          ("input_tokens", .num 15200), ("output_tokens", .num 3100),
          ("num_turns", .num 12)]))).cost_usd =
        (JsonFields.ofList [("type", .str "result"), ("subtype", .str "success"),
          ("is_error", .bool false), ("result", .str "Done!"),
          ("cost_usd", .num (23 / 100)), ("input_tokens", .num 15200),
          ("output_tokens", .num 3100), ("num_turns", .num 12)]).get? "cost_usd" :=
  ⟨by decide,
    (C3_usage_snapshot_capture (JsonFields.ofList [("type", .str "result"),
      ("subtype", .str "success"), ("is_error", .bool false),
      ("result", .str "Done!"), ("cost_usd", .num (23 / 100)),
      ("input_tokens", .num 15200), ("output_tokens", .num 3100),
      ("num_turns", .num 12)]) (by decide)).1⟩

/-- C1: `run_agent` takes an optional wall-clock timeout; with the timeout
absent the outcome selection never consults the timer race (the run is
unbounded), and when the timeout elapses before the child's stdout
completes, the outcome carries the fixed `[timeout]` prefix and not the
`[error]` prefix, while the error outcomes of a completed-but-failed run
carry `[error]` and never `[timeout]` — the two are distinguishable by
prefix. -/
theorem C1_timeout_outcome (t : Nat) (sc : Bool) (fin : Option String)
    (rc : Int) (stderrText : String) :
    runAgentOutcome none sc fin rc stderrText =
        runAgentOutcome none true fin rc stderrText ∧
      runAgentOutcome (some t) false fin rc stderrText =
        "[timeout] Agent run exceeded " ++ String.mk (natDigits t) ++
          "s wall-clock limit." ∧
      pyStartsWith (runAgentOutcome (some t) false fin rc stderrText) "[timeout]" = true ∧
      pyStartsWith (runAgentOutcome (some t) false fin rc stderrText) "[error]" = false ∧
      (fin = none →
        pyStartsWith (runAgentOutcome (some t) true fin rc stderrText) "[error]" = true ∧
          pyStartsWith (runAgentOutcome (some t) true fin rc stderrText) "[timeout]" = false) := by
  refine ⟨by cases sc <;> rfl, rfl, ?_, ?_, fun hfin => ?_⟩
  · simp [pyStartsWith, runAgentOutcome, List.isPrefixOf]
  · simp [pyStartsWith, runAgentOutcome, List.isPrefixOf]
  · subst hfin
    constructor
    · by_cases hrc : rc = 0 <;>
        simp [pyStartsWith, runAgentOutcome, hrc, List.isPrefixOf]
    · by_cases hrc : rc = 0 <;>
        simp [pyStartsWith, runAgentOutcome, hrc, List.isPrefixOf]

/-- Witness for C1 with the test scenario (1-second limit, child hung). -/
theorem C1_timeout_outcome_witness :
    (none : Option String) = none ∧
      pyStartsWith (runAgentOutcome (some 1) true none 1 "boom") "[error]" = true ∧
        pyStartsWith (runAgentOutcome (some 1) true none 1 "boom") "[timeout]" = false :=
  ⟨rfl, (C1_timeout_outcome 1 true none 1 "boom").2.2.2.2 rfl⟩

/-- C5 counterexample: on external cancellation the value `run_agent`
returns is the fixed string "[error] Agent interrupted by user.", which
carries the `[error]` failure prefix of the spec's tagged-outcome taxonomy —
so the returned outcome is a failure-tagged outcome, contradicting the
claim's "not a failure". -/
theorem C5_interrupt_counterexample :
    (runAgentFinalize true true (some "partial answer") 0 "" 3 7).2 =
        "[error] Agent interrupted by user." ∧
      pyStartsWith (runAgentFinalize true true (some "partial answer") 0 "" 3 7).2
        "[error]" = true := by
  constructor <;> decide

/-- C5 (amended): on external cancellation with logging enabled, the
session log is finalized before `run_agent` returns — a terminal done
record with result preview "[interrupted]" is written and the file is
closed — and the returned outcome is the fixed string
"[error] Agent interrupted by user.", which names the user interruption
but is tagged with the `[error]` failure prefix (with logging disabled no
log action is taken and the same string is returned). -/
theorem C5_interrupt_finalization (fin : Option String) (rc : Int)
    (stderrText : String) (steps : Nat) (elapsedS : Int) :
    runAgentFinalize true true fin rc stderrText steps elapsedS =
        ([.done steps elapsedS "[interrupted]", .close],
          "[error] Agent interrupted by user.") ∧
      runAgentFinalize false true fin rc stderrText steps elapsedS =
        ([], "[error] Agent interrupted by user.") := by
  constructor <;> rfl

/-- C2 counterexample: a line of valid JSON whose top-level value is not an
object — here the line "5" — makes the stream-line decoder raise
`AttributeError` (`data.get("type")` on an `int`), so the decoder does not
tolerate every well-formed-JSON line that is not of the expected shape. -/
theorem C2_decoder_counterexample :
    _process_stream_line "python3" (.parsed (.num 5)) 0 ⟨[], 0⟩ =
      .error .attributeError := rfl

/-- C2 (amended): for every input line, a blank line decodes to nothing and
a line that is not valid JSON is tolerated (no result, no emission, state
unchanged, decoding continuing) — but a line of valid JSON whose top-level
value is not an object raises `AttributeError`, which aborts the run, so
the never-raises tolerance holds for non-JSON noise only. -/
theorem C2_decoder_tolerance (exe raw : String) (now : Int) (st : DecState) :
    _process_stream_line exe .blank now st = .ok (none, [], st) ∧
      _process_stream_line exe (.invalid raw) now st = .ok (none, [], st) ∧
      ∀ j : Json, (∀ fs, j ≠ .obj fs) →
        _process_stream_line exe (.parsed j) now st = .error .attributeError := by
  refine ⟨rfl, rfl, fun j hj => ?_⟩
  cases j with
  | obj fs => exact absurd rfl (hj fs)
  | null => rfl
  | bool b => rfl
  | num q => rfl
  | str s => rfl
  | arr xs => rfl

/-- Witness for C2 on the non-object JSON line "true". -/
theorem C2_decoder_tolerance_witness :
    (∀ fs, Json.bool true ≠ .obj fs) ∧
      _process_stream_line "python3" (.parsed (.bool true)) 5 ⟨[], 2⟩ =
        .error .attributeError :=
  ⟨fun _ => Json.noConfusion, (C2_decoder_tolerance "python3" "x" 5 ⟨[], 2⟩).2.2
    (.bool true) fun _ => Json.noConfusion⟩

set_option maxRecDepth 400000 in
/-- C7 counterexample: a `python3 -c` command whose extracted call line is
129 characters long is summarized as the call line itself, with no
truncation to the 120-character budget and no ellipsis marker — so not
every input to the command summarizer is truncated to the budget. -/
theorem C7_format_command_counterexample :
    _format_command "python3"
        "python3 -c \"\nfrom desktop_assist.screen import save_screenshot\nprint(save_screenshot(path_a)) ; print(save_screenshot(path_b)) ; print(save_screenshot(path_c)) ; print(save_screenshot(path_d))\n\"" =
      "print(save_screenshot(path_a)) ; print(save_screenshot(path_b)) ; print(save_screenshot(path_c)) ; print(save_screenshot(path_d))" ∧
      123 < pyLen (_format_command "python3"
        "python3 -c \"\nfrom desktop_assist.screen import save_screenshot\nprint(save_screenshot(path_a)) ; print(save_screenshot(path_b)) ; print(save_screenshot(path_c)) ; print(save_screenshot(path_d))\n\"") := by
  constructor <;> decide

/-- C7 (amended): a command recognized as a `python3 -c`/`python -c`/
interpreter invocation with at least one extractable call line is
summarized by stripping the boilerplate import/quote lines and joining the
calls, with no truncation; every other command is stripped and truncated to
the 120-character budget, the trailing ellipsis marker being appended
exactly when the stripped text exceeds the budget and never otherwise. -/
theorem C7_format_command (exe cmd : String) :
    ((pyStartsWith (pyStrip cmd) "python3 -c" || pyStartsWith (pyStrip cmd) "python -c" ||
          pyStartsWith (pyStrip cmd) exe) = true →
        extractCalls (pyStrip cmd) ≠ [] →
        _format_command exe cmd = pyJoin " ; " (extractCalls (pyStrip cmd))) ∧
      ((pyStartsWith (pyStrip cmd) "python3 -c" || pyStartsWith (pyStrip cmd) "python -c" ||
          pyStartsWith (pyStrip cmd) exe) = false ∨ extractCalls (pyStrip cmd) = [] →
        _format_command exe cmd = _truncate (pyStrip cmd) 120) ∧
      ∀ s : String, ∀ n : Nat,
        (pyLen (pyStrip s) ≤ n → _truncate s n = pyStrip s) ∧
          (n < pyLen (pyStrip s) →
            _truncate s n = String.mk ((pyStrip s).data.take n ++ "...".data) ∧
              pyLen (_truncate s n) = n + 3) := by
  refine ⟨fun hpy hcalls => ?_, fun h => ?_, fun s n => ⟨fun hle => ?_, fun hgt => ?_⟩⟩
  · simp only [_format_command, hpy, if_true, List.isEmpty_iff]
    simp [hcalls]
  · rcases h with h | h
    · simp only [_format_command, h]
      rfl
    · simp [_format_command, h]
  · simp [_truncate, hle]
  · have hnle : ¬ pyLen (pyStrip s) ≤ n := by omega
    refine ⟨by simp [_truncate, hnle], ?_⟩
    simp only [_truncate, hnle, if_false]
    simp only [pyLen, List.length_append, List.length_take, List.length_cons,
      List.length_nil]
    have : (pyStrip s).data.length = pyLen (pyStrip s) := rfl
    omega

set_option maxRecDepth 10000 in
/-- Witness for C7: a plain (non-python) command longer than the budget is
truncated with the ellipsis appended, and the joined-calls path applies to
a python invocation with a call line. -/
theorem C7_format_command_witness :
    ((pyStartsWith (pyStrip "python3 -c \"\nclick(3, 4)\n\"") "python3 -c" ||
        pyStartsWith (pyStrip "python3 -c \"\nclick(3, 4)\n\"") "python -c" ||
        pyStartsWith (pyStrip "python3 -c \"\nclick(3, 4)\n\"") "python3") = true ∧
      extractCalls (pyStrip "python3 -c \"\nclick(3, 4)\n\"") ≠ [] ∧
      _format_command "python3" "python3 -c \"\nclick(3, 4)\n\"" =
        pyJoin " ; " (extractCalls (pyStrip "python3 -c \"\nclick(3, 4)\n\""))) ∧
      (pyLen (pyStrip "ok") ≤ 120 ∧ _truncate "ok" 120 = pyStrip "ok") :=
  ⟨⟨by decide, by decide,
      (C7_format_command "python3" "python3 -c \"\nclick(3, 4)\n\"").1 (by decide) (by decide)⟩,
    ⟨by decide, ((C7_format_command "python3" "x").2.2 "ok" 120).1 (by decide)⟩⟩

/-! ## C6: pending-timer map lemmas and the decoder invariant -/


theorem json_beq_self (a : Json) : (a == a) = true := Json.beq_refl a

theorem json_beq_true_iff (a b : Json) : (a == b) = true ↔ a = b :=
  ⟨Json.eq_of_beq a b, fun h => h ▸ Json.beq_refl a⟩

theorem bool_eq_false_of_ne_true {b : Bool} (h : ¬ b = true) : b = false := by
  cases b
  · rfl
  · exact absurd rfl h

theorem find?_append_singleton (m : List (Json × Int)) (k : Json) (v : Int)
    (h : ∀ p ∈ m, (p.1 == k) = false) :
    (m ++ [(k, v)]).find? (fun p => p.1 == k) = some (k, v) := by
  induction m with
  | nil => simp [List.find?, json_beq_self]
  | cons q m ih =>
    rw [List.cons_append]
    simp only [List.find?, h q (by simp)]
    exact ih fun p hp => h p (by simp [hp])

theorem find?_dictSet_replace (m : List (Json × Int)) (k : Json) (v : Int)
    (h : (m.any fun p => p.1 == k) = true) :
    (m.map fun p => if p.1 == k then (k, v) else p).find? (fun p => p.1 == k) =
      some (k, v) := by
  induction m with
  | nil => simp at h
  | cons q m ih =>
    rw [List.map_cons]
    by_cases hq : (q.1 == k) = true
    · rw [if_pos hq]
      simp [List.find?, json_beq_self]
    · rw [if_neg hq]
      simp only [List.find?, bool_eq_false_of_ne_true hq]
      rw [List.any_cons, bool_eq_false_of_ne_true hq, Bool.false_or] at h
      exact ih h

theorem find?_dictSet_self (m : List (Json × Int)) (k : Json) (v : Int) :
    (dictSet m k v).find? (fun p => p.1 == k) = some (k, v) := by
  by_cases h : (m.any fun p => p.1 == k) = true
  · rw [dictSet, if_pos h]
    exact find?_dictSet_replace m k v h
  · rw [dictSet, if_neg h]
    refine find?_append_singleton m k v fun p hp => ?_
    cases hpe : (p.1 == k)
    · rfl
    · exact absurd (List.any_eq_true.mpr ⟨p, hp, hpe⟩) h

theorem dictPop_dictSet (m : List (Json × Int)) (k : Json) (v : Int) :
    dictPop (dictSet m k v) k = (some v, dictRemove (dictSet m k v) k) := by
  rw [dictPop, find?_dictSet_self]
  rfl

theorem find?_dictRemove (m : List (Json × Int)) (k : Json) :
    (dictRemove m k).find? (fun p => p.1 == k) = none := by
  induction m with
  | nil => rfl
  | cons q m ih =>
    rw [dictRemove, List.filter_cons]
    by_cases hq : (q.1 == k) = true
    · simp only [hq, Bool.not_true, if_false]
      exact ih
    · simp only [bool_eq_false_of_ne_true hq, Bool.not_false, if_true]
      simp only [List.find?, bool_eq_false_of_ne_true hq]
      exact ih

theorem dictSet_entry_key (k : Json) (v : Int) (p : Json × Int) :
    ((if p.1 == k then (k, v) else p) : Json × Int).1 = p.1 := by
  by_cases hp : (p.1 == k) = true
  · rw [if_pos hp]
    exact (Json.eq_of_beq _ _ hp).symm
  · rw [if_neg hp]

theorem keysDistinct_dictSet (m : List (Json × Int)) (k : Json) (v : Int)
    (h : keysDistinct m) : keysDistinct (dictSet m k v) := by
  by_cases ha : (m.any fun p => p.1 == k) = true
  · rw [dictSet, if_pos ha, keysDistinct, List.pairwise_map]
    refine h.imp fun {a b} hab => ?_
    rw [dictSet_entry_key, dictSet_entry_key]
    exact hab
  · rw [dictSet, if_neg ha, keysDistinct, List.pairwise_append]
    refine ⟨h, List.pairwise_singleton _ _, ?_⟩
    intro a ham b hb
    simp only [List.mem_singleton] at hb
    subst hb
    intro he
    exact ha (List.any_eq_true.mpr ⟨a, ham, by rw [he]; exact json_beq_self k⟩)

theorem keysDistinct_filter (m : List (Json × Int)) (f : Json × Int → Bool)
    (h : keysDistinct m) : keysDistinct (m.filter f) :=
  h.sublist (List.filter_sublist m)

theorem toolUseLine_step (exe : String) (t nm : Json) (now : Int) (st : DecState) :
    _process_stream_line exe (toolUseLine t nm) now st =
      .ok (none, [.toolCall nm t .null],
        ⟨dictSet st.toolStartTimes t now, st.stepCounter + 1⟩) := rfl

theorem toolResultLine_step (exe : String) (t : Json) (now : Int) (st : DecState) :
    _process_stream_line exe (toolResultLine t) now st =
      .ok (none, [.toolResult t (.bool false) (.str "")
          ((dictPop st.toolStartTimes t).1.map fun s => now - s)],
        ⟨(dictPop st.toolStartTimes t).2, st.stepCounter⟩) := rfl



theorem pyGet_obj (fs : JsonFields) (k : String) (d : Json) :
    pyGet (.obj fs) k d = .ok ((fs.get? k).getD d) := rfl

theorem except_ok_bind {α β : Type} (a : α) (f : α → Except PyErr β) :
    (Except.ok a >>= f) = f a := rfl

theorem except_err_bind {α β : Type} (e : PyErr) (f : α → Except PyErr β) :
    ((Except.error e : Except PyErr α) >>= f) = .error e := rfl

theorem keysDistinct_dictPop_snd (m : List (Json × Int)) (k : Json)
    (h : keysDistinct m) : keysDistinct (dictPop m k).2 := by
  rw [dictPop]
  cases hf : m.find? fun p => p.1 == k
  · exact h
  · exact keysDistinct_filter m _ h

theorem processAssistantBlock_state (exe : String) (b : Json) (now : Int) (st : DecState)
    (es : List LogEmit) (st2 : DecState)
    (h : processAssistantBlock exe b now st = .ok (es, st2)) :
    st2.toolStartTimes = st.toolStartTimes ∨
      ∃ tid, st2.toolStartTimes = dictSet st.toolStartTimes tid now := by
  cases b with
  | obj fs =>
    simp only [processAssistantBlock, pyGet_obj, except_ok_bind] at h
    split at h
    · -- tool_use branch
      generalize hti : (fs.get? "input").getD (jobj []) = ti at h
      cases ti with
      | obj gs =>
        simp only [pyGet_obj, except_ok_bind] at h
        split at h
        · split at h
          · simp only [pure, Except.pure, Except.ok.injEq, Prod.mk.injEq] at h
            exact Or.inr ⟨_, by rw [← h.2]⟩
          · exact absurd h (by simp [throw, throwThe, MonadExceptOf.throw])
        · simp only [pyGet_obj, except_ok_bind, pure, Except.pure, Except.ok.injEq,
            Prod.mk.injEq] at h
          exact Or.inr ⟨_, by rw [← h.2]⟩
      | null => exact absurd h (by simp [pyGet, except_err_bind])
      | bool x => exact absurd h (by simp [pyGet, except_err_bind])
      | num x => exact absurd h (by simp [pyGet, except_err_bind])
      | str x => exact absurd h (by simp [pyGet, except_err_bind])
      | arr x => exact absurd h (by simp [pyGet, except_err_bind])
    · split at h
      · -- text branch
        split at h
        · split at h
          · simp only [pure, Except.pure, Except.ok.injEq, Prod.mk.injEq] at h
            exact Or.inl (by rw [← h.2])
          · simp only [pure, Except.pure, Except.ok.injEq, Prod.mk.injEq] at h
            exact Or.inl (by rw [← h.2])
        · exact absurd h (by simp [throw, throwThe, MonadExceptOf.throw])
      · simp only [pure, Except.pure, Except.ok.injEq, Prod.mk.injEq] at h
        exact Or.inl (by rw [← h.2])
  | null => exact absurd h (by simp [processAssistantBlock, pyGet, except_err_bind])
  | bool x => exact absurd h (by simp [processAssistantBlock, pyGet, except_err_bind])
  | num x => exact absurd h (by simp [processAssistantBlock, pyGet, except_err_bind])
  | str x => exact absurd h (by simp [processAssistantBlock, pyGet, except_err_bind])
  | arr x => exact absurd h (by simp [processAssistantBlock, pyGet, except_err_bind])

theorem processUserBlock_state (b : Json) (now : Int) (st : DecState)
    (es : List LogEmit) (st2 : DecState)
    (h : processUserBlock b now st = .ok (es, st2)) :
    st2.toolStartTimes = st.toolStartTimes ∨
      ∃ tid, st2.toolStartTimes = (dictPop st.toolStartTimes tid).2 := by
  cases b with
  | obj fs =>
    simp only [processUserBlock, pyGet_obj, except_ok_bind] at h
    split at h
    · simp only [pure, Except.pure, Except.ok.injEq, Prod.mk.injEq] at h
      exact Or.inr ⟨_, by rw [← h.2]⟩
    · simp only [pure, Except.pure, Except.ok.injEq, Prod.mk.injEq] at h
      exact Or.inl (by rw [← h.2])
  | null => exact absurd h (by simp [processUserBlock, pyGet, except_err_bind])
  | bool x => exact absurd h (by simp [processUserBlock, pyGet, except_err_bind])
  | num x => exact absurd h (by simp [processUserBlock, pyGet, except_err_bind])
  | str x => exact absurd h (by simp [processUserBlock, pyGet, except_err_bind])
  | arr x => exact absurd h (by simp [processUserBlock, pyGet, except_err_bind])

theorem processAssistantBlock_keysDistinct (exe : String) (b : Json) (now : Int)
    (st : DecState) (es : List LogEmit) (st2 : DecState)
    (h : processAssistantBlock exe b now st = .ok (es, st2))
    (hd : keysDistinct st.toolStartTimes) : keysDistinct st2.toolStartTimes := by
  rcases processAssistantBlock_state exe b now st es st2 h with he | ⟨tid, he⟩
  · rw [he]; exact hd
  · rw [he]; exact keysDistinct_dictSet _ _ _ hd

theorem processUserBlock_keysDistinct (b : Json) (now : Int)
    (st : DecState) (es : List LogEmit) (st2 : DecState)
    (h : processUserBlock b now st = .ok (es, st2))
    (hd : keysDistinct st.toolStartTimes) : keysDistinct st2.toolStartTimes := by
  rcases processUserBlock_state b now st es st2 h with he | ⟨tid, he⟩
  · rw [he]; exact hd
  · rw [he]; exact keysDistinct_dictPop_snd _ _ hd

theorem processBlocks_keysDistinct
    (f : Json → DecState → Except PyErr (List LogEmit × DecState))
    (hf : ∀ b st es st2, f b st = .ok (es, st2) →
      keysDistinct st.toolStartTimes → keysDistinct st2.toolStartTimes)
    (blocks : List Json) :
    ∀ st es st2, processBlocks f blocks st = .ok (es, st2) →
      keysDistinct st.toolStartTimes → keysDistinct st2.toolStartTimes := by
  induction blocks with
  | nil =>
    intro st es st2 h hd
    simp only [processBlocks, Except.ok.injEq, Prod.mk.injEq] at h
    rw [← h.2]; exact hd
  | cons b bs ih =>
    intro st es st2 h hd
    simp only [processBlocks] at h
    cases hb : f b st with
    | error e => rw [hb, except_err_bind] at h; exact absurd h (by simp)
    | ok p =>
      obtain ⟨es1, st1⟩ := p
      rw [hb] at h
      simp only [except_ok_bind] at h
      cases hbs : processBlocks f bs st1 with
      | error e => rw [hbs, except_err_bind] at h; exact absurd h (by simp)
      | ok q =>
        obtain ⟨es2, st3⟩ := q
        rw [hbs] at h
        simp only [except_ok_bind, pure, Except.pure, Except.ok.injEq, Prod.mk.injEq] at h
        rw [← h.2]
        exact ih st1 es2 st3 hbs (hf b st es1 st1 hb hd)

theorem process_stream_line_keysDistinct (exe : String) (line : StreamLine) (now : Int)
    (st : DecState) (r : Option Json) (es : List LogEmit) (st2 : DecState)
    (h : _process_stream_line exe line now st = .ok (r, es, st2))
    (hd : keysDistinct st.toolStartTimes) : keysDistinct st2.toolStartTimes := by
  cases line with
  | blank =>
    simp only [_process_stream_line, pure, Except.pure, Except.ok.injEq,
      Prod.mk.injEq] at h
    rw [← h.2.2]; exact hd
  | invalid raw =>
    simp only [_process_stream_line, pure, Except.pure, Except.ok.injEq,
      Prod.mk.injEq] at h
    rw [← h.2.2]; exact hd
  | parsed data =>
    cases data with
    | obj fs =>
      simp only [_process_stream_line, pyGet_obj, except_ok_bind] at h
      split at h
      · split at h
        · simp only [pure, Except.pure, Except.ok.injEq, Prod.mk.injEq] at h
          rw [← h.2.2]; exact hd
        · simp only [pure, Except.pure, Except.ok.injEq, Prod.mk.injEq] at h
          rw [← h.2.2]; exact hd
      · generalize hm : (fs.get? "message").getD (jobj []) = msg at h
        cases msg with
        | obj ms =>
          simp only [pyGet_obj, except_ok_bind] at h
          split at h
          · generalize hcb : (ms.get? "content").getD (jarr []) = cb at h
            cases hit : pyIter cb with
            | error e => rw [hit, except_err_bind] at h; exact absurd h (by simp)
            | ok blocks =>
              rw [hit] at h
              simp only [except_ok_bind] at h
              cases hpb : processBlocks (fun b st => processAssistantBlock exe b now st)
                  blocks st with
              | error e => rw [hpb, except_err_bind] at h; exact absurd h (by simp)
              | ok p =>
                obtain ⟨es1, st1⟩ := p
                rw [hpb] at h
                simp only [except_ok_bind, pure, Except.pure, Except.ok.injEq,
                  Prod.mk.injEq] at h
                rw [← h.2.2]
                exact processBlocks_keysDistinct _
                  (fun b st es st2 hb hdb =>
                    processAssistantBlock_keysDistinct exe b now st es st2 hb hdb)
                  blocks st es1 st1 hpb hd
          · split at h
            · generalize hcb : (ms.get? "content").getD (jarr []) = cb at h
              cases hit : pyIter cb with
              | error e => rw [hit, except_err_bind] at h; exact absurd h (by simp)
              | ok blocks =>
                rw [hit] at h
                simp only [except_ok_bind] at h
                cases hpb : processBlocks (fun b st => processUserBlock b now st)
                    blocks st with
                | error e => rw [hpb, except_err_bind] at h; exact absurd h (by simp)
                | ok p =>
                  obtain ⟨es1, st1⟩ := p
                  rw [hpb] at h
                  simp only [except_ok_bind, pure, Except.pure, Except.ok.injEq,
                    Prod.mk.injEq] at h
                  rw [← h.2.2]
                  exact processBlocks_keysDistinct _
                    (fun b st es st2 hb hdb =>
                      processUserBlock_keysDistinct b now st es st2 hb hdb)
                    blocks st es1 st1 hpb hd
            · simp only [pure, Except.pure, Except.ok.injEq, Prod.mk.injEq] at h
              rw [← h.2.2]; exact hd
        | null => exact absurd h (by simp [pyGet, except_err_bind])
        | bool x => exact absurd h (by simp [pyGet, except_err_bind])
        | num x => exact absurd h (by simp [pyGet, except_err_bind])
        | str x => exact absurd h (by simp [pyGet, except_err_bind])
        | arr x => exact absurd h (by simp [pyGet, except_err_bind])
    | null => exact absurd h (by simp [_process_stream_line, pyGet, except_err_bind])
    | bool x => exact absurd h (by simp [_process_stream_line, pyGet, except_err_bind])
    | num x => exact absurd h (by simp [_process_stream_line, pyGet, except_err_bind])
    | str x => exact absurd h (by simp [_process_stream_line, pyGet, except_err_bind])
    | arr x => exact absurd h (by simp [_process_stream_line, pyGet, except_err_bind])

/-- C6: for a decoded `tool_use` with id `t` followed by the matching
`tool_result` for `t` under a monotone clock, the computed elapsed time is
`n2 - n1 ≥ 0` and the pending-timer map holds no entry for `t` afterward;
and at every point during decoding there is at most one pending timer per
tool-call id (every successful decode step preserves key-distinctness of
the timer map). -/
theorem C6_pending_timers (exe : String) (t nm : Json) (n1 n2 : Int) (st : DecState)
    (hmono : n1 ≤ n2) :
    _process_stream_line exe (toolUseLine t nm) n1 st =
        .ok (none, [.toolCall nm t .null],
          ⟨dictSet st.toolStartTimes t n1, st.stepCounter + 1⟩) ∧
      _process_stream_line exe (toolResultLine t) n2
          ⟨dictSet st.toolStartTimes t n1, st.stepCounter + 1⟩ =
        .ok (none, [.toolResult t (.bool false) (.str "") (some (n2 - n1))],
          ⟨dictRemove (dictSet st.toolStartTimes t n1) t, st.stepCounter + 1⟩) ∧
      0 ≤ n2 - n1 ∧
      (dictRemove (dictSet st.toolStartTimes t n1) t).find? (fun p => p.1 == t) = none ∧
      ∀ (line : StreamLine) (now' : Int) (st' : DecState) (r : Option Json)
        (es : List LogEmit) (st2 : DecState), keysDistinct st'.toolStartTimes →
        _process_stream_line exe line now' st' = .ok (r, es, st2) →
        keysDistinct st2.toolStartTimes := by
  refine ⟨toolUseLine_step exe t nm n1 st, ?_, by omega, find?_dictRemove _ t,
    fun line now' st' r es st2 hd h =>
      process_stream_line_keysDistinct exe line now' st' r es st2 h hd⟩
  rw [toolResultLine_step]
  simp [dictPop_dictSet]

/-- Witness for C6 at a concrete pair (id "tool_1", times 3 then 10). -/
theorem C6_pending_timers_witness :
    (3 : Int) ≤ 10 ∧
      _process_stream_line "python3" (toolUseLine (.str "tool_1") (.str "Bash")) 3
          ⟨[], 0⟩ =
        .ok (none, [.toolCall (.str "Bash") (.str "tool_1") .null],
          ⟨dictSet ([] : List (Json × Int)) (.str "tool_1") 3, 1⟩) :=
  ⟨by decide,
    (C6_pending_timers "python3" (.str "tool_1") (.str "Bash") 3 10 ⟨[], 0⟩ (by decide)).1⟩


/-! ## C8 development -/

theorem json_str_beq (a b : String) : (Json.str a == Json.str b) = (a == b) := rfl

theorem resumeStep_toolCall (acc : ResumeAcc) (p : ToolPair) :
    resumeStep acc (jobj [("event", .str "tool_call"), ("step", .num (p.step : ℚ)),
        ("tool", .str p.tool), ("command", .str p.command)]) =
      .ok { acc with actionSummaries := acc.actionSummaries ++
        ["  - [" ++ String.mk (intDigits p.step) ++ "] " ++ p.tool ++ ": " ++ p.command] } := by
  simp [resumeStep, jobj, JsonFields.ofList, JsonFields.get?, pyStr, json_str_beq,
    Rat.den_intCast, Rat.num_intCast]

theorem resumeStep_toolResult (acc : ResumeAcc) (b : Bool) :
    resumeStep acc (jobj [("event", .str "tool_result"), ("is_error", .bool b)]) =
      .ok { acc with actionSummaries := acc.actionSummaries ++
        ["    -> " ++ (if b then "ERROR" else "OK")] } := by
  simp [resumeStep, jobj, JsonFields.ofList, JsonFields.get?, pyTruthy, json_str_beq]

theorem resumeStep_start (p : String) (m : Option String) :
    resumeStep ⟨"", none, [], "interrupted"⟩ (startEvent p m) =
      .ok ⟨p, m.map Json.str, [], "interrupted"⟩ := by
  cases m with
  | none => simp [resumeStep, startEvent, jobj, JsonFields.ofList, JsonFields.get?,
      pyStr, json_str_beq]
  | some s => simp [resumeStep, startEvent, jobj, JsonFields.ofList, JsonFields.get?,
      pyStr, json_str_beq]

theorem foldlM_pairEvents (ps : List ToolPair) :
    ∀ acc : ResumeAcc, List.foldlM resumeStep acc (pairEvents ps) =
      .ok { acc with actionSummaries := acc.actionSummaries ++ pairSummaries ps } := by
  induction ps with
  | nil =>
    intro acc
    simp only [pairEvents, pairSummaries, List.foldlM_nil, List.append_nil]
    rfl
  | cons p rest ih =>
    intro acc
    rw [pairEvents, List.foldlM_cons, resumeStep_toolCall, except_ok_bind,
      List.foldlM_cons, resumeStep_toolResult, except_ok_bind, ih, pairSummaries]
    simp

theorem pairSummaries_length (ps : List ToolPair) :
    (pairSummaries ps).length = 2 * ps.length := by
  induction ps with
  | nil => rfl
  | cons p rest ih => simp [pairSummaries, ih]; omega

/-- C8: for a session log holding a start record and 40 tool-call/result
pairs, `build_resume_prompt` renders as transcript exactly the most recent
30 of the 80 summary lines (so at most 30), always includes the original
task text (the prompt appears verbatim inside the augmented prompt), and
returns the recorded model selector alongside. -/
theorem C8_resume_prompt (p : String) (m : Option String) (ps : List ToolPair)
    (hlen : ps.length = 40) :
    build_resume_prompt (startEvent p m :: pairEvents ps) =
        .ok ("RESUMING PREVIOUS SESSION (status: " ++ "interrupted" ++ ").\n" ++
          "Original task: " ++ p ++ "\n\n" ++
          "The previous attempt performed these actions:\n" ++
          pyJoin "\n" (takeLast 30 (pairSummaries ps)) ++ "\n\n" ++ resumeInstructions,
          m.map Json.str) ∧
      (takeLast 30 (pairSummaries ps)).length = 30 ∧
      ∃ a b : String,
        "RESUMING PREVIOUS SESSION (status: " ++ "interrupted" ++ ").\n" ++
            "Original task: " ++ p ++ "\n\n" ++
            "The previous attempt performed these actions:\n" ++
            pyJoin "\n" (takeLast 30 (pairSummaries ps)) ++ "\n\n" ++ resumeInstructions =
          a ++ p ++ b := by
  refine ⟨?_, ?_, ?_⟩
  · rw [build_resume_prompt, List.foldlM_cons, resumeStep_start, except_ok_bind,
      foldlM_pairEvents]
    simp [except_ok_bind]
  · rw [takeLast, List.length_drop, pairSummaries_length, hlen]
  · refine ⟨"RESUMING PREVIOUS SESSION (status: " ++ "interrupted" ++ ").\n" ++
      "Original task: ",
      "\n\n" ++ "The previous attempt performed these actions:\n" ++
        pyJoin "\n" (takeLast 30 (pairSummaries ps)) ++ "\n\n" ++ resumeInstructions, ?_⟩
    simp [String.append_assoc]


/-- Witness for C8 on a session log of 40 identical tool-call/result pairs. -/
theorem C8_resume_prompt_witness :
    (List.replicate 40 (⟨1, "Bash", "cmd", false⟩ : ToolPair)).length = 40 ∧
      (takeLast 30 (pairSummaries
        (List.replicate 40 (⟨1, "Bash", "cmd", false⟩ : ToolPair)))).length = 30 :=
  ⟨by decide,
    (C8_resume_prompt "open the app" (some "opus")
      (List.replicate 40 ⟨1, "Bash", "cmd", false⟩) (by decide)).2.1⟩


/-! ## C10 development -/

theorem scanSessionLines_stops_at_invalid (pre : List StreamLine) (raw : String)
    (post : List StreamLine) :
    ∀ s : SessionSummary, (∀ l ∈ pre, cleanLine l = true) →
      scanSessionLines (pre ++ .invalid raw :: post) s = scanSessionLines pre s := by
  induction pre with
  | nil => intro s _; rfl
  | cons l pre ih =>
    intro s hc
    have hl := hc l (by simp)
    cases l with
    | blank => exact ih s fun x hx => hc x (by simp [hx])
    | invalid r => simp [cleanLine] at hl
    | parsed j =>
      cases j with
      | obj fs =>
        rw [List.cons_append]
        show scanSessionLines (.parsed (.obj fs) :: (pre ++ .invalid raw :: post)) s = _
        rw [scanSessionLines, scanSessionLines]
        split
        · exact ih _ fun x hx => hc x (by simp [hx])
        · split
          · exact ih _ fun x hx => hc x (by simp [hx])
          · exact ih _ fun x hx => hc x (by simp [hx])
      | null => simp [cleanLine] at hl
      | bool b => simp [cleanLine] at hl
      | num q => simp [cleanLine] at hl
      | str t => simp [cleanLine] at hl
      | arr x => simp [cleanLine] at hl

theorem scanSessionLines_clean (lines : List StreamLine) :
    ∀ s : SessionSummary, (∀ l ∈ lines, cleanLine l = true) →
      ∃ s', scanSessionLines lines s = .ok s' ∧ s'.id = s.id ∧ s'.path = s.path ∧
        s'.status = (if lines.any isDoneLine then "done" else s.status) := by
  induction lines with
  | nil => intro s _; exact ⟨s, rfl, rfl, rfl, by simp⟩
  | cons l lines ih =>
    intro s hc
    have hl := hc l (by simp)
    cases l with
    | blank =>
      obtain ⟨s', h1, h2, h3, h4⟩ := ih s fun x hx => hc x (by simp [hx])
      exact ⟨s', h1, h2, h3, by simpa [isDoneLine] using h4⟩
    | invalid r => simp [cleanLine] at hl
    | parsed j =>
      cases j with
      | obj fs =>
        rw [scanSessionLines]
        by_cases hst : ((fs.get? "event").getD .null == Json.str "start") = true
        · rw [if_pos hst]
          obtain ⟨s', h1, h2, h3, h4⟩ :=
            ih ({ s with prompt := (fs.get? "prompt").getD (Json.str "?") })
              (fun x hx => hc x (by simp [hx]))
          refine ⟨s', h1, h2, h3, ?_⟩
          have hnd : isDoneLine (.parsed (.obj fs)) = false := by
            rw [isDoneLine, Json.eq_of_beq _ _ hst]
            rfl
          simpa [List.any_cons, hnd] using h4
        · rw [if_neg hst]
          by_cases hdn : ((fs.get? "event").getD .null == Json.str "done") = true
          · rw [if_pos hdn]
            obtain ⟨s', h1, h2, h3, h4⟩ :=
              ih ({ s with steps := (fs.get? "steps").getD (Json.num 0), elapsed_s := (fs.get? "elapsed_s").getD (Json.num 0), status := "done" })
                (fun x hx => hc x (by simp [hx]))
            refine ⟨s', h1, h2, h3, ?_⟩
            have hd : isDoneLine (.parsed (.obj fs)) = true := hdn
            rw [List.any_cons, hd, Bool.true_or]
            simp [h4]
          · rw [if_neg hdn]
            obtain ⟨s', h1, h2, h3, h4⟩ := ih s fun x hx => hc x (by simp [hx])
            refine ⟨s', h1, h2, h3, ?_⟩
            have hnd : isDoneLine (.parsed (.obj fs)) = false := by
              cases hv : isDoneLine (.parsed (.obj fs))
              · rfl
              · exact absurd hv hdn
            simpa [List.any_cons, hnd] using h4
      | null => simp [cleanLine] at hl
      | bool b => simp [cleanLine] at hl
      | num q => simp [cleanLine] at hl
      | str t => simp [cleanLine] at hl
      | arr x => simp [cleanLine] at hl

theorem scanSessionLines_objLines (lines : List StreamLine) :
    ∀ s : SessionSummary, (∀ l ∈ lines, isObjLine l = true) →
      ∃ s', scanSessionLines lines s = .ok s' ∧ s'.id = s.id ∧ s'.path = s.path := by
  induction lines with
  | nil => intro s _; exact ⟨s, rfl, rfl, rfl⟩
  | cons l lines ih =>
    intro s hc
    have hl := hc l (by simp)
    cases l with
    | blank => exact ih s fun x hx => hc x (by simp [hx])
    | invalid r => exact ⟨s, rfl, rfl, rfl⟩
    | parsed j =>
      cases j with
      | obj fs =>
        rw [scanSessionLines]
        split
        · exact ih _ fun x hx => hc x (by simp [hx])
        · split
          · exact ih _ fun x hx => hc x (by simp [hx])
          · exact ih _ fun x hx => hc x (by simp [hx])
      | null => simp [isObjLine] at hl
      | bool b => simp [isObjLine] at hl
      | num q => simp [isObjLine] at hl
      | str t => simp [isObjLine] at hl
      | arr x => simp [isObjLine] at hl

theorem summarizeSession_ok (stem : String) (content : Option (List StreamLine))
    (h : ∀ ls, content = some ls → ∀ l ∈ ls, isObjLine l = true) :
    ∃ s', summarizeSession stem content = .ok s' ∧ s'.id = stem ∧
      s'.path = String.mk (stem.data ++ ".jsonl".data) := by
  cases content with
  | none => exact ⟨fixStatus (initSummary stem), rfl, rfl, rfl⟩
  | some ls =>
    obtain ⟨s', h1, h2, h3⟩ := scanSessionLines_objLines ls (initSummary stem) (h ls rfl)
    refine ⟨fixStatus s', ?_, ?_, ?_⟩
    · rw [summarizeSession, h1]; rfl
    · rw [fixStatus]; split <;> exact h2
    · rw [fixStatus]; split <;> exact h3

theorem mapM_summarize_ok (files : List SessionFile)
    (h : ∀ f ∈ files, ∀ ls, f.content = some ls → ∀ l ∈ ls, isObjLine l = true) :
    ∃ ss, (files.mapM fun f => summarizeSession (stemOf f.name) f.content) = .ok ss ∧
      ss.length = files.length ∧ ss.map (fun s => s.id) = files.map fun f => stemOf f.name := by
  induction files with
  | nil => exact ⟨[], rfl, rfl, rfl⟩
  | cons f fs ih =>
    obtain ⟨s', h1, h2, h3⟩ :=
      summarizeSession_ok (stemOf f.name) f.content (h f (by simp))
    obtain ⟨ss, g1, g2, g3⟩ := ih fun x hx => h x (by simp [hx])
    refine ⟨s' :: ss, ?_, by simp [g2], by simp [g3, h2]⟩
    rw [List.mapM_cons, h1, g1]
    rfl

theorem mem_insertDesc (x y : SessionFile) (l : List SessionFile) :
    x ∈ insertDesc y l ↔ x = y ∨ x ∈ l := by
  induction l with
  | nil => simp [insertDesc]
  | cons z l ih =>
    rw [insertDesc]
    split
    · simp
    · simp only [List.mem_cons, ih]
      tauto

theorem mem_sortFilesDesc (x : SessionFile) (l : List SessionFile) :
    x ∈ sortFilesDesc l ↔ x ∈ l := by
  induction l with
  | nil => simp [sortFilesDesc]
  | cons z l ih => rw [sortFilesDesc, mem_insertDesc]; simp [ih]

theorem length_insertDesc (y : SessionFile) (l : List SessionFile) :
    (insertDesc y l).length = l.length + 1 := by
  induction l with
  | nil => rfl
  | cons z l ih =>
    rw [insertDesc]
    split
    · simp
    · simp [ih]

theorem length_sortFilesDesc (l : List SessionFile) :
    (sortFilesDesc l).length = l.length := by
  induction l with
  | nil => rfl
  | cons z l ih => rw [sortFilesDesc, length_insertDesc, ih]; rfl

/-- C10 counterexample: a directory holding one `*.jsonl` file whose single
line is the valid-JSON non-object "5" makes `list_sessions` raise
`AttributeError` (`evt.get("event")` on an `int`), so `list_sessions` does
not never-raise. -/
theorem C10_list_sessions_counterexample :
    list_sessions [⟨"a.jsonl", some [.parsed (.num 5)]⟩] = .error .attributeError := rfl

/-- C10 (amended): over a directory whose readable lines that parse as JSON
are all objects, `list_sessions` returns exactly one summary per `*.jsonl`
file (in descending name order, summaries carrying the file stems) and does
not raise; a file line that fails JSON decoding makes the scan of that file
skip all remaining lines (the result is independent of them), and such a
file's status is reported "incomplete" unless a done record was parsed
before the failure (then "done").  A readable line holding non-object JSON
raises `AttributeError` out of the whole listing. -/
theorem C10_list_sessions (dir : List SessionFile)
    (h : ∀ f ∈ dir, isJsonlName f.name = true →
      ∀ ls, f.content = some ls → ∀ l ∈ ls, isObjLine l = true) :
    (∃ ss, list_sessions dir = .ok ss ∧
        ss.length = (dir.filter fun f => isJsonlName f.name).length ∧
        ss.map (fun s => s.id) =
          (sortFilesDesc (dir.filter fun f => isJsonlName f.name)).map
            fun f => stemOf f.name) ∧
      (∀ (pre : List StreamLine) (raw : String) (post1 post2 : List StreamLine)
        (s : SessionSummary), (∀ l ∈ pre, cleanLine l = true) →
        scanSessionLines (pre ++ .invalid raw :: post1) s =
          scanSessionLines (pre ++ .invalid raw :: post2) s) ∧
      (∀ (stem : String) (pre post : List StreamLine) (raw : String),
        (∀ l ∈ pre, cleanLine l = true) →
        ∃ s', summarizeSession stem (some (pre ++ .invalid raw :: post)) = .ok s' ∧
          s'.status = (if pre.any isDoneLine then "done" else "incomplete")) := by
  refine ⟨?_, ?_, ?_⟩
  · obtain ⟨ss, h1, h2, h3⟩ :=
      mapM_summarize_ok (sortFilesDesc (dir.filter fun f => isJsonlName f.name))
        (fun f hf => by
          have hm := (mem_sortFilesDesc f _).mp hf
          exact h f (List.mem_filter.mp hm).1 (List.mem_filter.mp hm).2)
    exact ⟨ss, h1, by rw [h2, length_sortFilesDesc], by rw [h3]⟩
  · intro pre raw post1 post2 s hc
    rw [scanSessionLines_stops_at_invalid pre raw post1 s hc,
      scanSessionLines_stops_at_invalid pre raw post2 s hc]
  · intro stem pre post raw hc
    obtain ⟨s', h1, h2, h3, h4⟩ := scanSessionLines_clean pre (initSummary stem) hc
    refine ⟨fixStatus s', ?_, ?_⟩
    · rw [summarizeSession, scanSessionLines_stops_at_invalid pre raw post _ hc, h1]
      rfl
    · by_cases hany : pre.any isDoneLine = true
      · have hdone : s'.status = "done" := by rw [h4, hany]; simp
        rw [fixStatus]
        simp [hdone, hany]
      · have hany' : pre.any isDoneLine = false := by
          cases hv : pre.any isDoneLine
          · rfl
          · exact absurd hv hany
        have hunk : s'.status = "unknown" := by rw [h4, hany']; simp [initSummary]
        rw [fixStatus]
        simp [hunk, hany']

/-- Witness for C10 on a two-file directory: one complete log, one log cut
by an invalid line after its done record. -/
theorem C10_list_sessions_witness :
    (∀ f ∈ ([⟨"b.jsonl", some [.parsed (jobj [("event", .str "start"), ("prompt", .str "p")]), .invalid "oops"]⟩, ⟨"a.jsonl", none⟩, ⟨"notes.txt", some [.parsed (.num 7)]⟩] : List SessionFile), isJsonlName f.name = true → ∀ ls, f.content = some ls → ∀ l ∈ ls, isObjLine l = true) ∧
      ∃ ss, list_sessions [⟨"b.jsonl", some [.parsed (jobj [("event", .str "start"), ("prompt", .str "p")]), .invalid "oops"]⟩, ⟨"a.jsonl", none⟩, ⟨"notes.txt", some [.parsed (.num 7)]⟩] = .ok ss ∧
        ss.length = (([⟨"b.jsonl", some [.parsed (jobj [("event", .str "start"), ("prompt", .str "p")]), .invalid "oops"]⟩, ⟨"a.jsonl", none⟩, ⟨"notes.txt", some [.parsed (.num 7)]⟩] : List SessionFile).filter fun f => isJsonlName f.name).length ∧
        ss.map (fun s => s.id) =
          (sortFilesDesc (([⟨"b.jsonl", some [.parsed (jobj [("event", .str "start"), ("prompt", .str "p")]), .invalid "oops"]⟩, ⟨"a.jsonl", none⟩, ⟨"notes.txt", some [.parsed (.num 7)]⟩] : List SessionFile).filter fun f => isJsonlName f.name)).map fun f => stemOf f.name :=
  ⟨by decide,
    (C10_list_sessions [⟨"b.jsonl", some [.parsed (jobj [("event", .str "start"), ("prompt", .str "p")]), .invalid "oops"]⟩, ⟨"a.jsonl", none⟩, ⟨"notes.txt", some [.parsed (.num 7)]⟩] (by decide)).1⟩

/-! ## C9: decimal-digit rendering lemmas -/

theorem toNat_charOfNat (n : Nat) (h1 : n < 55296) : (Char.ofNat n).toNat = n := by
  have hv : n.isValidChar := Or.inl h1
  rw [Char.ofNat, dif_pos hv]
  rfl

theorem natDigitsCore_acc (fuel : Nat) :
    ∀ (n : Nat) (acc : List Char),
      natDigitsCore fuel n acc = natDigitsCore fuel n [] ++ acc := by
  induction fuel with
  | zero => intro n acc; rfl
  | succ fuel ih =>
    intro n acc
    rw [natDigitsCore, natDigitsCore]
    by_cases h : (n / 10 == 0) = true
    · simp only [h, if_true]
      rfl
    · simp only [h, if_false]
      rw [ih (n / 10) (Char.ofNat (48 + n % 10) :: acc),
        ih (n / 10) [Char.ofNat (48 + n % 10)]]
      simp

theorem natDigitsCore_fuel (n : Nat) :
    ∀ fuel fuel' : Nat, 0 < fuel → 0 < fuel' → n < 10 ^ fuel → n < 10 ^ fuel' →
      natDigitsCore fuel n [] = natDigitsCore fuel' n [] := by
  induction n using Nat.strong_induction_on with
  | _ n ih =>
    intro fuel fuel' hf hf' hn hn'
    obtain ⟨f, rfl⟩ : ∃ f, fuel = f + 1 := ⟨fuel - 1, by omega⟩
    obtain ⟨f', rfl⟩ : ∃ f', fuel' = f' + 1 := ⟨fuel' - 1, by omega⟩
    rw [natDigitsCore, natDigitsCore]
    by_cases h : (n / 10 == 0) = true
    · simp only [h, if_true]
    · simp only [h, if_false]
      have hd : n / 10 ≠ 0 := by simpa using h
      have hn10 : 10 ≤ n := by omega
      have hfpos : 0 < f := by
        by_contra hc
        have : f = 0 := by omega
        subst this
        simp at hn
        omega
      have hfpos' : 0 < f' := by
        by_contra hc
        have : f' = 0 := by omega
        subst this
        simp at hn'
        omega
      rw [natDigitsCore_acc f, natDigitsCore_acc f']
      rw [ih (n / 10) (by omega) f f' hfpos hfpos'
        (by
          have : n < 10 ^ (f + 1) := hn
          rw [pow_succ] at this
          omega)
        (by
          have : n < 10 ^ (f' + 1) := hn'
          rw [pow_succ] at this
          omega)]

theorem natDigits_lt10 (n : Nat) (h : n < 10) :
    natDigits n = [Char.ofNat (48 + n)] := by
  rw [natDigits, natDigitsCore]
  have : (n / 10 == 0) = true := by
    have : n / 10 = 0 := by omega
    simp [this]
  simp only [this, if_true]
  have hm : n % 10 = n := by omega
  rw [hm]

theorem natDigits_ge10 (n : Nat) (h : 10 ≤ n) :
    natDigits n = natDigits (n / 10) ++ [Char.ofNat (48 + n % 10)] := by
  rw [natDigits, natDigitsCore]
  have h0 : (n / 10 == 0) = false := by
    have : n / 10 ≠ 0 := by omega
    simpa using this
  simp only [h0, if_false]
  rw [natDigitsCore_acc]
  rw [natDigits]
  have h1 : n / 10 < 10 ^ n := by
    calc n / 10 ≤ n := Nat.div_le_self n 10
    _ < 10 ^ n := Nat.lt_pow_self (by omega) n
  have h2 : n / 10 < 10 ^ (n / 10 + 1) := by
    calc n / 10 < 10 ^ (n / 10) := Nat.lt_pow_self (by omega) _
    _ ≤ 10 ^ (n / 10 + 1) := Nat.pow_le_pow_right (by omega) (by omega)
  rw [natDigitsCore_fuel (n / 10) n (n / 10 + 1) (by omega) (by omega) h1 h2]
  simp

theorem isDigitCh_digitChar (d : Nat) (h : d < 10) :
    isDigitCh (Char.ofNat (48 + d)) = true := by
  rw [isDigitCh, toNat_charOfNat (48 + d) (by omega)]
  simp only [Bool.and_eq_true, decide_eq_true_eq]
  omega

theorem natDigits_isDigit (n : Nat) : ∀ c ∈ natDigits n, isDigitCh c = true := by
  induction n using Nat.strong_induction_on with
  | _ n ih =>
    by_cases h : n < 10
    · rw [natDigits_lt10 n h]
      intro c hc
      simp only [List.mem_singleton] at hc
      subst hc
      exact isDigitCh_digitChar n h
    · rw [natDigits_ge10 n (by omega)]
      intro c hc
      rcases List.mem_append.mp hc with hc | hc
      · exact ih (n / 10) (by omega) c hc
      · simp only [List.mem_singleton] at hc
        subst hc
        exact isDigitCh_digitChar (n % 10) (by omega)

theorem natDigits_ne_nil (n : Nat) : natDigits n ≠ [] := by
  by_cases h : n < 10
  · rw [natDigits_lt10 n h]; simp
  · rw [natDigits_ge10 n (by omega)]; simp

theorem natDigits_length_le (n : Nat) : ∀ k, 1 ≤ k → n < 10 ^ k →
    (natDigits n).length ≤ k := by
  induction n using Nat.strong_induction_on with
  | _ n ih =>
    intro k hk hn
    by_cases h : n < 10
    · rw [natDigits_lt10 n h]
      simpa using hk
    · rw [natDigits_ge10 n (by omega)]
      have hk2 : 2 ≤ k := by
        by_contra hc
        have : k = 1 := by omega
        subst this
        simp at hn
        omega
      have := ih (n / 10) (by omega) (k - 1) (by omega)
        (by
          have hp : 10 ^ k = 10 ^ (k - 1) * 10 := by
            rw [← pow_succ]
            congr 1
            omega
          rw [hp] at hn
          omega)
      simp only [List.length_append, List.length_singleton]
      omega

theorem digitsVal_from (ds : List Char) :
    ∀ a : Nat, ds.foldl (fun a c => a * 10 + (c.toNat - 48)) a =
      a * 10 ^ ds.length + digitsVal ds := by
  induction ds with
  | nil => intro a; simp [digitsVal]
  | cons c ds ih =>
    intro a
    rw [List.foldl_cons, ih]
    have h2 : digitsVal (c :: ds) = (c.toNat - 48) * 10 ^ ds.length + digitsVal ds := by
      rw [digitsVal, List.foldl_cons, ih (0 * 10 + (c.toNat - 48))]
      ring_nf
    rw [h2]
    simp [List.length_cons, pow_succ]
    ring

theorem digitsVal_append (ds es : List Char) :
    digitsVal (ds ++ es) = digitsVal ds * 10 ^ es.length + digitsVal es := by
  rw [digitsVal, List.foldl_append, digitsVal_from es, digitsVal]
  rfl

theorem digitsVal_natDigits (n : Nat) : digitsVal (natDigits n) = n := by
  induction n using Nat.strong_induction_on with
  | _ n ih =>
    by_cases h : n < 10
    · rw [natDigits_lt10 n h, digitsVal, List.foldl_cons, List.foldl_nil,
        toNat_charOfNat (48 + n) (by omega)]
      omega
    · rw [natDigits_ge10 n (by omega), digitsVal_append, ih (n / 10) (by omega)]
      rw [digitsVal, List.foldl_cons, List.foldl_nil,
        toNat_charOfNat (48 + n % 10) (by omega)]
      simp only [List.length_singleton, pow_one]
      omega

theorem takeDigits_append (ds rest : List Char)
    (hd : ∀ c ∈ ds, isDigitCh c = true)
    (hr : ∀ c ∈ rest.head?, isDigitCh c = false) :
    takeDigits (ds ++ rest) = (ds, rest) := by
  induction ds with
  | nil =>
    rw [List.nil_append]
    cases rest with
    | nil => rfl
    | cons c r =>
      rw [takeDigits]
      have := hr c (by simp)
      simp [this]
  | cons c ds ih =>
    rw [List.cons_append, takeDigits]
    have := hd c (by simp)
    simp only [this, if_true]
    rw [ih fun x hx => hd x (by simp [hx])]

theorem digitsVal_replicate_zero (j : Nat) :
    digitsVal (List.replicate j '0') = 0 := by
  induction j with
  | zero => rfl
  | succ j ih =>
    rw [digitsVal] at ih ⊢
    rw [List.replicate_succ, List.foldl_cons]
    simpa using ih

theorem digitsVal_padZeros (k : Nat) (ds : List Char) :
    digitsVal (padZeros k ds) = digitsVal ds := by
  rw [padZeros, digitsVal_append, digitsVal_replicate_zero]
  simp

theorem length_padZeros (k : Nat) (ds : List Char) (h : ds.length ≤ k) :
    (padZeros k ds).length = k := by
  rw [padZeros, List.length_append, List.length_replicate]
  omega

theorem padZeros_isDigit (k : Nat) (ds : List Char)
    (h : ∀ c ∈ ds, isDigitCh c = true) :
    ∀ c ∈ padZeros k ds, isDigitCh c = true := by
  intro c hc
  rcases List.mem_append.mp hc with hc | hc
  · have := List.eq_of_mem_replicate hc
    subst this
    decide
  · exact h c hc


/-! ## C9: number parsing roundtrips -/

theorem numStop_head (rest : List Char) (h : numStop rest = true) :
    ∀ c ∈ rest.head?, isDigitCh c = false := by
  cases rest with
  | nil => intro c hc; simp at hc
  | cons c r =>
    intro d hd
    simp only [List.head?_cons, Option.mem_def, Option.some.injEq] at hd
    subst hd
    rw [numStop] at h
    simp only [Bool.and_eq_true, Bool.not_eq_true'] at h
    exact h.1

theorem isEmpty_natDigits (a : Nat) : (natDigits a).isEmpty = false := by
  cases hnd : natDigits a with
  | nil => exact absurd hnd (natDigits_ne_nil a)
  | cons d ds => rfl

theorem parseNumTail_int (a : Nat) (neg : Bool) (rest : List Char)
    (hstop : numStop rest = true) :
    parseNumTail neg (natDigits a ++ rest) =
      some (.int (if neg then -(a : Int) else (a : Int)), rest) := by
  rw [parseNumTail]
  simp only [takeDigits_append (natDigits a) rest (natDigits_isDigit a)
    (numStop_head rest hstop), isEmpty_natDigits, Bool.false_eq_true, if_false]
  cases rest with
  | nil => simp [digitsVal_natDigits]
  | cons c r =>
    have hdot : (c == '.') = false := by
      rw [numStop] at hstop
      simp only [Bool.and_eq_true, Bool.not_eq_true'] at hstop
      exact hstop.2
    simp [hdot, digitsVal_natDigits]

theorem parseNumTail_dec (ip fp f : Nat) (hf : 1 ≤ f) (hfp : fp < 10 ^ f)
    (neg : Bool) (rest : List Char) (hstop : numStop rest = true) :
    parseNumTail neg (natDigits ip ++ '.' :: (padZeros f (natDigits fp) ++ rest)) =
      some (.dec (if neg then -((ip * 10 ^ f + fp : Nat) : Int)
        else ((ip * 10 ^ f + fp : Nat) : Int)) f, rest) := by
  rw [parseNumTail]
  have hdothead : ∀ c ∈ ('.' :: (padZeros f (natDigits fp) ++ rest)).head?,
      isDigitCh c = false := by
    intro c hc
    simp only [List.head?_cons, Option.mem_def, Option.some.injEq] at hc
    subst hc
    decide
  simp only [takeDigits_append (natDigits ip) _ (natDigits_isDigit ip) hdothead,
    isEmpty_natDigits, Bool.false_eq_true, if_false]
  have hpadlen : (padZeros f (natDigits fp)).length = f :=
    length_padZeros f (natDigits fp) (natDigits_length_le fp f hf hfp)
  have hpadne : (padZeros f (natDigits fp)).isEmpty = false := by
    cases hp : padZeros f (natDigits fp) with
    | nil => rw [hp] at hpadlen; simp at hpadlen; omega
    | cons x xs => rfl
  simp only [show (('.' : Char) == '.') = true from rfl, if_true,
    takeDigits_append (padZeros f (natDigits fp)) rest
      (padZeros_isDigit f (natDigits fp) (natDigits_isDigit fp))
      (numStop_head rest hstop),
    hpadne, Bool.false_eq_true, if_false]
  simp [hpadlen, digitsVal_padZeros, digitsVal_natDigits]

/-! ## C9: string escaping roundtrip -/

theorem hexVal_hexDigitChar : ∀ n : Nat, n < 16 → hexVal (hexDigitChar n) = some n := by
  decide

theorem parseStringBody_escape (cs : List Char) (rest : List Char)
    (h : ∀ c ∈ cs, okChar c = true) :
    parseStringBody (escapeStrL cs ++ dquote :: rest) = some (cs, rest) := by
  induction cs with
  | nil =>
    rw [escapeStrL, List.nil_append, parseStringBody.eq_def]
    simp +decide [dquote]
  | cons c cs ih =>
    have hok := h c (by simp)
    have ihr : parseStringBody (escapeStrL cs ++ Char.ofNat 34 :: rest) = some (cs, rest) := by
      simpa [dquote] using ih fun x hx => h x (by simp [hx])
    rw [escapeStrL, escapeChar]
    by_cases h1 : (c == dquote) = true
    · rw [if_pos h1, eq_of_beq h1]
      simp only [List.cons_append, List.nil_append]
      rw [parseStringBody.eq_def]
      simp +decide [escDecode, dquote, ihr]
    · rw [if_neg h1]
      by_cases h2 : (c == '\\') = true
      · rw [if_pos h2, eq_of_beq h2]
        simp only [List.cons_append, List.nil_append]
        rw [parseStringBody.eq_def]
        simp +decide [escDecode, dquote, ihr]
      · rw [if_neg h2]
        by_cases h3 : (c == '\n') = true
        · rw [if_pos h3, eq_of_beq h3]
          simp only [List.cons_append, List.nil_append]
          rw [parseStringBody.eq_def]
          simp +decide [escDecode, dquote, ihr]
        · rw [if_neg h3]
          by_cases h4 : (c == '\t') = true
          · rw [if_pos h4, eq_of_beq h4]
            simp only [List.cons_append, List.nil_append]
            rw [parseStringBody.eq_def]
            simp +decide [escDecode, dquote, ihr]
          · rw [if_neg h4]
            by_cases h5 : (c == '\r') = true
            · rw [if_pos h5, eq_of_beq h5]
              simp only [List.cons_append, List.nil_append]
              rw [parseStringBody.eq_def]
              simp +decide [escDecode, dquote, ihr]
            · rw [if_neg h5]
              by_cases h6 : (c == Char.ofNat 8) = true
              · rw [if_pos h6, eq_of_beq h6]
                simp only [List.cons_append, List.nil_append]
                rw [parseStringBody.eq_def]
                simp +decide [escDecode, dquote, ihr]
              · rw [if_neg h6]
                by_cases h7 : (c == Char.ofNat 12) = true
                · rw [if_pos h7, eq_of_beq h7]
                  simp only [List.cons_append, List.nil_append]
                  rw [parseStringBody.eq_def]
                  simp +decide [escDecode, dquote, ihr]
                · rw [if_neg h7]
                  by_cases h8 : (32 ≤ c.toNat && c.toNat ≤ 126) = true
                  · rw [if_pos h8]
                    simp only [Bool.and_eq_true, decide_eq_true_eq] at h8
                    have h1' := bool_eq_false_of_ne_true h1
                    have h2' := bool_eq_false_of_ne_true h2
                    have h32 : ¬ c.toNat < 32 := by omega
                    simp only [List.cons_append, List.nil_append]
                    rw [parseStringBody.eq_def]
                    simp [h1', h2', h32, dquote, ihr]
                    simp [dquote] at h1'
                    simp [h1']
                  · rw [if_neg h8]
                    simp only [Bool.and_eq_true, decide_eq_true_eq, not_and_or,
                      not_le] at h8
                    have hlt : c.toNat < 65536 := by
                      rw [okChar] at hok
                      simpa using hok
                    have e1 : hexVal (hexDigitChar (c.toNat / 4096 % 16)) =
                        some (c.toNat / 4096 % 16) := hexVal_hexDigitChar _ (by omega)
                    have e2 : hexVal (hexDigitChar (c.toNat / 256 % 16)) =
                        some (c.toNat / 256 % 16) := hexVal_hexDigitChar _ (by omega)
                    have e3 : hexVal (hexDigitChar (c.toNat / 16 % 16)) =
                        some (c.toNat / 16 % 16) := hexVal_hexDigitChar _ (by omega)
                    have e4 : hexVal (hexDigitChar (c.toNat % 16)) =
                        some (c.toNat % 16) := hexVal_hexDigitChar _ (by omega)
                    have hsum : 4096 * (c.toNat / 4096 % 16) + 256 * (c.toNat / 256 % 16) +
                        16 * (c.toNat / 16 % 16) + c.toNat % 16 = c.toNat := by omega
                    simp only [List.cons_append, List.nil_append]
                    rw [parseStringBody.eq_def]
                    simp +decide [dquote, e1, e2, e3, e4, hsum, Char.ofNat_toNat, ihr]

theorem digit_ne_char (d : Char) (hd : isDigitCh d = true) (x : Char)
    (hx : 57 < x.toNat ∨ x.toNat < 48) : (d == x) = false := by
  cases he : (d == x) with
  | false => rfl
  | true =>
    have hdx : d = x := eq_of_beq he
    subst hdx
    rw [isDigitCh] at hd
    simp only [Bool.and_eq_true, decide_eq_true_eq] at hd
    omega

theorem parseJVal_neg_dispatch (tail : List Char) :
    parseJVal ('-' :: tail) = parseNumTail true tail := rfl

theorem parseJVal_str_dispatch (tail : List Char) :
    parseJVal (dquote :: tail) =
      (parseStringBody tail).map fun p => (JVal.str (String.mk p.1), p.2) := rfl

theorem parseJVal_digits_dispatch (a : Nat) (tail : List Char) :
    parseJVal (natDigits a ++ tail) = parseNumTail false (natDigits a ++ tail) := by
  cases hnd : natDigits a with
  | nil => exact absurd hnd (natDigits_ne_nil a)
  | cons d ds =>
    have hddig : isDigitCh d = true := by
      apply natDigits_isDigit a
      rw [hnd]
      simp
    simp only [List.cons_append]
    rw [parseJVal.eq_def]
    simp only [digit_ne_char d hddig 'n' (by left; decide),
      digit_ne_char d hddig 't' (by left; decide),
      digit_ne_char d hddig 'f' (by left; decide),
      digit_ne_char d hddig '-' (by right; decide),
      digit_ne_char d hddig dquote (by right; decide),
      hddig, Bool.false_eq_true, if_false, if_true]

theorem parseJVal_dump (v : JVal) (rest : List Char) (hv : okJVal v = true)
    (hstop : numStop rest = true) :
    parseJVal (dumpJVal v ++ rest) = some (v, rest) := by
  cases v with
  | null =>
    show parseJVal ('n' :: 'u' :: 'l' :: 'l' :: rest) = some (.null, rest)
    rw [parseJVal.eq_def]
    simp +decide
  | bool b =>
    cases b with
    | true =>
      show parseJVal ('t' :: 'r' :: 'u' :: 'e' :: rest) = some (.bool true, rest)
      rw [parseJVal.eq_def]
      simp +decide
    | false =>
      show parseJVal ('f' :: 'a' :: 'l' :: 's' :: 'e' :: rest) = some (.bool false, rest)
      rw [parseJVal.eq_def]
      simp +decide
  | int n =>
    rw [dumpJVal, intDigits]
    by_cases hn : n < 0
    · rw [if_pos hn, List.cons_append, parseJVal_neg_dispatch,
        parseNumTail_int n.natAbs true rest hstop]
      have hval2 : (if (true : Bool) = true then -((n.natAbs : Nat) : Int)
          else ((n.natAbs : Nat) : Int)) = n := by
        rw [if_pos rfl]
        omega
      rw [hval2]
    · rw [if_neg hn, parseJVal_digits_dispatch,
        parseNumTail_int n.natAbs false rest hstop]
      have hval2 : (if (false : Bool) = true then -((n.natAbs : Nat) : Int)
          else ((n.natAbs : Nat) : Int)) = n := by
        rw [if_neg (by simp)]
        omega
      rw [hval2]
  | dec m f =>
    have hf : 1 ≤ f := by
      rw [okJVal] at hv
      simpa using hv
    have hfp : m.natAbs % 10 ^ f < 10 ^ f := Nat.mod_lt _ (by positivity)
    have hval : m.natAbs / 10 ^ f * 10 ^ f + m.natAbs % 10 ^ f = m.natAbs := by
      rw [Nat.mul_comm]
      exact Nat.div_add_mod m.natAbs (10 ^ f)
    rw [dumpJVal]
    by_cases hm : m < 0
    · rw [if_pos hm]
      simp only [List.cons_append, List.nil_append, List.append_assoc]
      rw [parseJVal_neg_dispatch,
        parseNumTail_dec (m.natAbs / 10 ^ f) (m.natAbs % 10 ^ f) f hf hfp true rest hstop]
      have hval2 : (if (true : Bool) = true
          then -(((m.natAbs / 10 ^ f * 10 ^ f + m.natAbs % 10 ^ f : Nat) : Int))
          else (((m.natAbs / 10 ^ f * 10 ^ f + m.natAbs % 10 ^ f : Nat) : Int))) = m := by
        rw [if_pos rfl, hval]
        omega
      rw [hval2]
    · rw [if_neg hm]
      simp only [List.cons_append, List.nil_append, List.append_assoc]
      rw [parseJVal_digits_dispatch,
        parseNumTail_dec (m.natAbs / 10 ^ f) (m.natAbs % 10 ^ f) f hf hfp false rest hstop]
      have hval2 : (if (false : Bool) = true
          then -(((m.natAbs / 10 ^ f * 10 ^ f + m.natAbs % 10 ^ f : Nat) : Int))
          else (((m.natAbs / 10 ^ f * 10 ^ f + m.natAbs % 10 ^ f : Nat) : Int))) = m := by
        rw [if_neg (by simp), hval]
        omega
      rw [hval2]
  | str t =>
    have hok : ∀ c ∈ t.data, okChar c = true := by
      rw [okJVal, okStringB] at hv
      exact fun c hc => List.all_eq_true.mp hv c hc
    rw [dumpJVal, List.cons_append]
    show (parseStringBody ((escapeStrL t.data ++ [dquote]) ++ rest)).map
        (fun p => (JVal.str (String.mk p.1), p.2)) = some (JVal.str t, rest)
    rw [List.append_assoc, List.singleton_append, parseStringBody_escape t.data rest hok]
    show some (JVal.str (String.mk t.data), rest) = some (JVal.str t, rest)
    cases t
    rfl

/-! ## C9: object-member parsing roundtrip -/

theorem skipWs_eq_self_of_head (l : List Char)
    (h : ∀ c ∈ l.head?, (c == ' ' || c == '\t' || c == '\n' || c == '\r') = false) :
    skipWs l = l := by
  cases l with
  | nil => rfl
  | cons c r =>
    rw [skipWs]
    have := h c (by simp)
    simp [this]

theorem skipWs_space (l : List Char) : skipWs (' ' :: l) = skipWs l := by
  rw [skipWs]
  simp

theorem nonws_of_digit (c : Char) (h : isDigitCh c = true) :
    (c == ' ' || c == '\t' || c == '\n' || c == '\r') = false := by
  rw [digit_ne_char c h ' ' (by right; decide),
    digit_ne_char c h '\t' (by right; decide),
    digit_ne_char c h '\n' (by right; decide),
    digit_ne_char c h '\r' (by right; decide)]
  rfl

theorem dumpJVal_head_nonws (v : JVal) :
    ∀ c ∈ (dumpJVal v).head?,
      (c == ' ' || c == '\t' || c == '\n' || c == '\r') = false := by
  intro c hc
  cases v with
  | null =>
    simp only [dumpJVal] at hc
    simp only [show ("null".data : List Char) = ['n', 'u', 'l', 'l'] from rfl,
      List.head?_cons, Option.mem_def, Option.some.injEq] at hc
    subst hc
    rfl
  | bool b =>
    cases b with
    | true =>
      simp only [dumpJVal, show ("true".data : List Char) = ['t', 'r', 'u', 'e'] from rfl,
        List.head?_cons, Option.mem_def, Option.some.injEq] at hc
      subst hc
      rfl
    | false =>
      simp only [dumpJVal, show ("false".data : List Char) = ['f', 'a', 'l', 's', 'e'] from rfl,
        List.head?_cons, Option.mem_def, Option.some.injEq] at hc
      subst hc
      rfl
  | int n =>
    simp only [dumpJVal, intDigits] at hc
    by_cases hn : n < 0
    · rw [if_pos hn] at hc
      simp only [List.head?_cons, Option.mem_def, Option.some.injEq] at hc
      subst hc
      rfl
    · rw [if_neg hn] at hc
      cases hnd : natDigits n.natAbs with
      | nil => exact absurd hnd (natDigits_ne_nil _)
      | cons d ds =>
        rw [hnd] at hc
        simp only [List.head?_cons, Option.mem_def, Option.some.injEq] at hc
        subst hc
        exact nonws_of_digit d (by
          apply natDigits_isDigit n.natAbs
          rw [hnd]
          simp)
  | dec m f =>
    simp only [dumpJVal] at hc
    by_cases hm : m < 0
    · rw [if_pos hm] at hc
      simp only [List.cons_append, List.head?_cons, Option.mem_def,
        Option.some.injEq] at hc
      subst hc
      rfl
    · rw [if_neg hm] at hc
      simp only [List.nil_append] at hc
      cases hnd : natDigits (m.natAbs / 10 ^ f) with
      | nil => exact absurd hnd (natDigits_ne_nil _)
      | cons d ds =>
        rw [hnd] at hc
        simp only [List.cons_append, List.head?_cons, Option.mem_def,
          Option.some.injEq] at hc
        subst hc
        exact nonws_of_digit d (by
          apply natDigits_isDigit (m.natAbs / 10 ^ f)
          rw [hnd]
          simp)
  | str t =>
    simp only [dumpJVal, List.cons_append, List.head?_cons, Option.mem_def,
      Option.some.injEq] at hc
    subst hc
    rfl

theorem dumpJVal_ne_nil (v : JVal) : dumpJVal v ≠ [] := by
  cases v with
  | null => simp [dumpJVal]
  | bool b => cases b <;> simp [dumpJVal]
  | int n =>
    rw [dumpJVal, intDigits]
    by_cases hn : n < 0
    · rw [if_pos hn]; simp
    · rw [if_neg hn]; exact natDigits_ne_nil _
  | dec m f =>
    rw [dumpJVal]
    by_cases hm : m < 0
    · rw [if_pos hm]; simp
    · rw [if_neg hm]
      simp only [List.nil_append]
      intro hc
      exact List.cons_ne_nil _ _ (List.append_eq_nil.mp hc).2
  | str t => simp [dumpJVal]

theorem skipWs_dump_append (v : JVal) (SEP : List Char) :
    skipWs (dumpJVal v ++ SEP) = dumpJVal v ++ SEP := by
  cases hd : dumpJVal v with
  | nil => exact absurd hd (dumpJVal_ne_nil v)
  | cons b bs =>
    rw [List.cons_append]
    apply skipWs_eq_self_of_head
    intro c hc
    simp only [List.head?_cons, Option.mem_def, Option.some.injEq] at hc
    subst hc
    exact dumpJVal_head_nonws v b (by rw [hd]; simp)

theorem parseMembers_last (g : Nat) (k : String) (v : JVal) (tail : List Char)
    (hk : okStringB k = true) (hv : okJVal v = true) :
    parseMembers (g + 1) (dumpField (k, v) ++ '\x7d' :: tail) =
      some ([(k, v)], '\x7d' :: tail) := by
  rw [parseMembers]
  rw [dumpField]
  simp only [List.cons_append, List.append_assoc]
  rw [skipWs_eq_self_of_head _ (by intro c hc; simp at hc; subst hc; rfl)]
  simp only [show (dquote == dquote) = true from rfl, if_true]
  rw [parseStringBody_escape k.data _ (fun c hc => List.all_eq_true.mp hk c hc)]
  simp only []
  rw [skipWs_eq_self_of_head _ (by intro c hc; simp at hc; subst hc; rfl)]
  simp only [show ((':' : Char) == ':') = true from rfl, if_true]
  rw [skipWs_space, skipWs_dump_append,
    parseJVal_dump v _ hv (by rw [numStop]; decide)]
  simp only []
  rw [skipWs_eq_self_of_head _ (by intro c hc; simp at hc; subst hc; rfl)]
  simp only [show (('\x7d' : Char) == ',') = false from rfl, Bool.false_eq_true, if_false]

theorem parseMembers_comma (g : Nat) (k : String) (v : JVal) (X : List Char)
    (hk : okStringB k = true) (hv : okJVal v = true) :
    parseMembers (g + 1) (dumpField (k, v) ++ ',' :: ' ' :: X) =
      (parseMembers g (' ' :: X)).map fun p => ((k, v) :: p.1, p.2) := by
  rw [parseMembers]
  rw [dumpField]
  simp only [List.cons_append, List.append_assoc]
  rw [skipWs_eq_self_of_head _ (by intro c hc; simp at hc; subst hc; rfl)]
  simp only [show (dquote == dquote) = true from rfl, if_true]
  rw [parseStringBody_escape k.data _ (fun c hc => List.all_eq_true.mp hk c hc)]
  simp only []
  rw [skipWs_eq_self_of_head _ (by intro c hc; simp at hc; subst hc; rfl)]
  simp only [show ((':' : Char) == ':') = true from rfl, if_true]
  rw [skipWs_space, skipWs_dump_append,
    parseJVal_dump v _ hv (by rw [numStop]; decide)]
  simp only []
  rw [skipWs_eq_self_of_head _ (by intro c hc; simp at hc; subst hc; rfl)]
  simp only [show ((',' : Char) == ',') = true from rfl, if_true]

theorem parseMembers_cons_space (g : Nat) (X : List Char) (hg : 1 ≤ g) :
    parseMembers g (' ' :: X) = parseMembers g X := by
  obtain ⟨g', rfl⟩ : ∃ g', g = g' + 1 := ⟨g - 1, by omega⟩
  rw [parseMembers]
  conv_rhs => rw [parseMembers]
  rw [skipWs_space]

theorem parseMembers_dumpFields (r : SessionRecord) :
    ∀ (fuel : Nat) (tail : List Char),
      okRecord r = true → r ≠ [] → r.length ≤ fuel →
      parseMembers fuel (dumpFields r ++ '\x7d' :: tail) = some (r, '\x7d' :: tail) := by
  induction r with
  | nil => intro fuel tail _ hne _; exact absurd rfl hne
  | cons kv rest ih =>
    intro fuel tail hok hne hlen
    obtain ⟨g, rfl⟩ : ∃ g, fuel = g + 1 := ⟨fuel - 1, by
      simp only [List.length_cons] at hlen
      omega⟩
    rw [okRecord, List.all_cons, Bool.and_eq_true] at hok
    have hokv := hok.1
    rw [Bool.and_eq_true] at hokv
    obtain ⟨k, v⟩ := kv
    cases rest with
    | nil =>
      rw [dumpFields]
      exact parseMembers_last g k v tail hokv.1 hokv.2
    | cons kv2 rest2 =>
      rw [dumpFields]
      simp only [List.append_assoc, List.cons_append]
      rw [parseMembers_comma g k v _ hokv.1 hokv.2]
      have hg : 1 ≤ g := by
        simp only [List.length_cons] at hlen
        omega
      rw [parseMembers_cons_space g _ hg]
      rw [ih g tail (by rw [okRecord]; exact hok.2) (List.cons_ne_nil _ _) (by
          simp only [List.length_cons] at hlen ⊢
          omega)]
      rfl
      intro h
      exact List.noConfusion h

theorem one_le_length_dumpField (kv : String × JVal) : 1 ≤ (dumpField kv).length := by
  rw [dumpField]
  simp

theorem length_le_dumpFields (r : SessionRecord) : r.length ≤ (dumpFields r).length := by
  induction r with
  | nil => simp [dumpFields]
  | cons kv rest ih =>
    cases rest with
    | nil =>
      rw [dumpFields]
      simpa using one_le_length_dumpField kv
    | cons kv2 rest2 =>
      rw [dumpFields]
      simp only [List.length_append, List.length_cons]
      simp only [List.length_cons] at ih
      have h1 := one_le_length_dumpField kv
      omega
      intro h
      exact List.noConfusion h

theorem dumpFields_cons_eq (kv : String × JVal) (rest : SessionRecord) :
    ∃ t, dumpFields (kv :: rest) = dquote :: t := by
  cases rest with
  | nil =>
    rw [dumpFields, dumpField]
    exact ⟨_, rfl⟩
  | cons kv2 rest2 =>
    rw [dumpFields, dumpField]
    simp only [List.cons_append]
    exact ⟨_, rfl⟩
    intro h
    exact List.noConfusion h

theorem parseObjLine_dumpRecord (r : SessionRecord) (hok : okRecord r = true)
    (hne : r ≠ []) : parseObjLine (dumpRecord r) = some r := by
  obtain ⟨kv, rest, rfl⟩ : ∃ kv rest, r = kv :: rest := by
    cases r with
    | nil => exact absurd rfl hne
    | cons kv rest => exact ⟨kv, rest, rfl⟩
  obtain ⟨t, ht⟩ := dumpFields_cons_eq kv rest
  have hlen : (kv :: rest).length ≤ t.length + 1 := by
    have := length_le_dumpFields (kv :: rest)
    rw [ht] at this
    simpa using this
  rw [parseObjLine, dumpRecord, ht]
  simp only [List.cons_append, List.append_nil]
  rw [skipWs_eq_self_of_head _ (by intro c hc; simp at hc; subst hc; rfl)]
  simp only [show (('\x7b' : Char) == '\x7b') = true from rfl, if_true]
  rw [skipWs_eq_self_of_head _ (by intro c hc; simp at hc; subst hc; rfl)]
  simp only [show (dquote == '\x7d') = false from rfl, Bool.false_eq_true, if_false]
  rw [show (dquote :: (t ++ ['\x7d']) : List Char) =
      dumpFields (kv :: rest) ++ '\x7d' :: [] from by rw [ht]; simp]
  rw [parseMembers_dumpFields (kv :: rest) _ [] hok (List.cons_ne_nil _ _) (by
      simp only [ht, List.length_append, List.length_cons]
      simp only [List.length_cons] at hlen
      omega)]
  simp only []
  rw [show (('\x7d' : Char) == '\x7d') = true from rfl, if_pos rfl, skipWs]

theorem hexDigitChar_ne_nl : ∀ n, n < 16 → hexDigitChar n ≠ '\n' := by decide

theorem escapeChar_not_nl (c : Char) : ('\n' : Char) ∉ escapeChar c := by
  rw [escapeChar]
  by_cases h1 : c == dquote
  · rw [if_pos h1]; decide
  rw [if_neg h1]
  by_cases h2 : c == '\\'
  · rw [if_pos h2]; decide
  rw [if_neg h2]
  by_cases h3 : c == '\n'
  · rw [if_pos h3]; decide
  rw [if_neg h3]
  by_cases h4 : c == '\t'
  · rw [if_pos h4]; decide
  rw [if_neg h4]
  by_cases h5 : c == '\r'
  · rw [if_pos h5]; decide
  rw [if_neg h5]
  by_cases h6 : c == Char.ofNat 8
  · rw [if_pos h6]; decide
  rw [if_neg h6]
  by_cases h7 : c == Char.ofNat 12
  · rw [if_pos h7]; decide
  rw [if_neg h7]
  by_cases h8 : (32 ≤ c.toNat && c.toNat ≤ 126) = true
  · rw [if_pos h8]
    intro hc
    simp only [List.mem_singleton] at hc
    exact absurd (beq_iff_eq.mpr hc.symm) (by simpa using h3)
  · rw [if_neg h8]
    intro hc
    simp only [List.mem_cons, List.not_mem_nil, or_false] at hc
    rcases hc with h | h | h | h | h | h
    · exact absurd h.symm (by decide)
    · exact absurd h.symm (by decide)
    · exact hexDigitChar_ne_nl _ (Nat.mod_lt _ (by omega)) h.symm
    · exact hexDigitChar_ne_nl _ (Nat.mod_lt _ (by omega)) h.symm
    · exact hexDigitChar_ne_nl _ (Nat.mod_lt _ (by omega)) h.symm
    · exact hexDigitChar_ne_nl _ (Nat.mod_lt _ (by omega)) h.symm

theorem escapeStrL_not_nl (cs : List Char) : ('\n' : Char) ∉ escapeStrL cs := by
  induction cs with
  | nil => simp [escapeStrL]
  | cons c cs ih =>
    rw [escapeStrL]
    intro hc
    rcases List.mem_append.mp hc with h | h
    · exact escapeChar_not_nl c h
    · exact ih h

theorem digit_not_nl (c : Char) (h : isDigitCh c = true) : c ≠ '\n' := by
  intro hc
  subst hc
  simp [isDigitCh] at h

theorem dumpJVal_not_nl (v : JVal) : ('\n' : Char) ∉ dumpJVal v := by
  cases v with
  | null => decide
  | bool b => cases b <;> decide
  | int n =>
    rw [dumpJVal, intDigits]
    by_cases hn : n < 0
    · rw [if_pos hn]
      intro hc
      rcases List.mem_cons.mp hc with h | h
      · exact absurd h.symm (by decide)
      · exact digit_not_nl _ (natDigits_isDigit _ _ h) rfl
    · rw [if_neg hn]
      intro hc
      exact digit_not_nl _ (natDigits_isDigit _ _ hc) rfl
  | dec m f =>
    rw [dumpJVal]
    intro hc
    rcases List.mem_append.mp hc with h | h
    · rcases List.mem_append.mp h with h2 | h2
      · by_cases hm : m < 0
        · rw [if_pos hm] at h2
          simp only [List.mem_singleton] at h2
          exact absurd h2.symm (by decide)
        · rw [if_neg hm] at h2
          simp at h2
      · exact digit_not_nl _ (natDigits_isDigit _ _ h2) rfl
    · rcases List.mem_cons.mp h with h2 | h2
      · exact absurd h2.symm (by decide)
      · exact digit_not_nl _ (padZeros_isDigit _ _ (natDigits_isDigit _) _ h2) rfl
  | str t =>
    rw [dumpJVal]
    intro hc
    rcases List.mem_cons.mp hc with h | h
    · exact absurd h.symm (by decide)
    · rcases List.mem_append.mp h with h2 | h2
      · exact escapeStrL_not_nl _ h2
      · simp only [List.mem_singleton] at h2
        exact absurd h2.symm (by decide)

theorem dumpField_not_nl (kv : String × JVal) : ('\n' : Char) ∉ dumpField kv := by
  rw [dumpField]
  intro hc
  rcases List.mem_cons.mp hc with h | h
  · exact absurd h.symm (by decide)
  · rcases List.mem_append.mp h with h2 | h2
    · exact escapeStrL_not_nl _ h2
    · rcases List.mem_cons.mp h2 with h3 | h3
      · exact absurd h3.symm (by decide)
      · rcases List.mem_cons.mp h3 with h4 | h4
        · exact absurd h4.symm (by decide)
        · rcases List.mem_cons.mp h4 with h5 | h5
          · exact absurd h5.symm (by decide)
          · exact dumpJVal_not_nl _ h5

theorem dumpFields_not_nl (r : SessionRecord) : ('\n' : Char) ∉ dumpFields r := by
  induction r with
  | nil => simp [dumpFields]
  | cons kv rest ih =>
    cases rest with
    | nil =>
      rw [dumpFields]
      exact dumpField_not_nl kv
    | cons kv2 rest2 =>
      rw [dumpFields]
      intro hc
      rcases List.mem_append.mp hc with h | h
      · exact dumpField_not_nl _ h
      · rcases List.mem_cons.mp h with h2 | h2
        · exact absurd h2.symm (by decide)
        · rcases List.mem_cons.mp h2 with h3 | h3
          · exact absurd h3.symm (by decide)
          · exact ih h3
      intro h
      exact List.noConfusion h

theorem dumpRecord_not_nl (r : SessionRecord) : ('\n' : Char) ∉ dumpRecord r := by
  rw [dumpRecord]
  intro hc
  rcases List.mem_cons.mp hc with h | h
  · exact absurd h.symm (by decide)
  · rcases List.mem_append.mp h with h2 | h2
    · exact dumpFields_not_nl _ h2
    · simp only [List.mem_singleton] at h2
      exact absurd h2.symm (by decide)

theorem splitOnCharL_append (sep : Char) (A B : List Char) (h : sep ∉ A) :
    splitOnCharL sep (A ++ sep :: B) = A :: splitOnCharL sep B := by
  induction A with
  | nil =>
    rw [List.nil_append, splitOnCharL]
    simp
  | cons a A ih =>
    rw [List.cons_append, splitOnCharL]
    have ha : (a == sep) = false := by
      simp only [beq_eq_false_iff_ne, ne_eq]
      intro hc
      exact h (by simp [hc])
    rw [ha]
    simp only [Bool.false_eq_true, if_false]
    rw [ih (fun hc => h (List.mem_cons_of_mem _ hc))]

theorem splitOnCharL_renderLog (rs : List SessionRecord) :
    splitOnCharL '\n' (renderLog rs) = rs.map dumpRecord ++ [[]] := by
  induction rs with
  | nil => rfl
  | cons r rs ih =>
    rw [renderLog, splitOnCharL_append _ _ _ (dumpRecord_not_nl r), ih]
    rfl

theorem dropWhile_eq_self_of_head (l : List Char)
    (h : ∀ c ∈ l.head?, isPySpace c = false) : l.dropWhile isPySpace = l := by
  cases l with
  | nil => rfl
  | cons c cs =>
    rw [List.dropWhile_cons, if_neg]
    simp only [List.head?_cons, Option.mem_def, Option.some.injEq, forall_eq] at h
    simp [h]

theorem pyStripL_eq_self (cs : List Char)
    (h1 : ∀ c ∈ cs.head?, isPySpace c = false)
    (h2 : ∀ c ∈ cs.reverse.head?, isPySpace c = false) : pyStripL cs = cs := by
  rw [pyStripL, dropWhile_eq_self_of_head cs h1, dropWhile_eq_self_of_head _ h2,
    List.reverse_reverse]

theorem pyStripL_dumpRecord (r : SessionRecord) :
    pyStripL (dumpRecord r) = dumpRecord r := by
  apply pyStripL_eq_self
  · intro c hc
    rw [dumpRecord] at hc
    simp only [List.cons_append, List.head?_cons, Option.mem_def, Option.some.injEq] at hc
    subst hc
    rfl
  · intro c hc
    rw [dumpRecord] at hc
    simp only [List.cons_append, List.reverse_cons, List.reverse_append,
      List.reverse_cons, List.reverse_nil, List.nil_append, List.cons_append,
      List.head?_cons, Option.mem_def, Option.some.injEq] at hc
    subst hc
    rfl

theorem replayLines_map (rs : List SessionRecord)
    (h : ∀ r ∈ rs, okRecord r = true ∧ r ≠ []) :
    replayLines (rs.map dumpRecord ++ [[]]) = some rs := by
  induction rs with
  | nil => rfl
  | cons r rs ih =>
    rw [List.map_cons, List.cons_append, replayLines]
    simp only [pyStripL_dumpRecord]
    have hne : (dumpRecord r).isEmpty = false := by rw [dumpRecord]; rfl
    rw [hne]
    simp only [Bool.false_eq_true, if_false]
    rw [parseObjLine_dumpRecord r (h r (by simp)).1 (h r (by simp)).2]
    simp only []
    rw [ih (fun x hx => h x (List.mem_cons_of_mem _ hx))]
    rfl

theorem replay_session_renderLog (rs : List SessionRecord)
    (h : ∀ r ∈ rs, okRecord r = true ∧ r ≠ []) :
    replay_session (renderLog rs) = some rs := by
  rw [replay_session, splitOnCharL_renderLog, replayLines_map rs h]

theorem okStringB_truncPreview (s : String) (n : Nat) (h : okStringB s = true) :
    okStringB (truncPreview s n) = true := by
  rw [truncPreview]
  by_cases hle : pyLen s ≤ n
  · rw [if_pos hle]; exact h
  · rw [if_neg hle]
    rw [okStringB] at h ⊢
    simp only [List.all_eq_true] at h ⊢
    intro c hc
    rcases List.mem_append.mp hc with h2 | h2
    · exact h c (List.mem_of_mem_take h2)
    · rcases List.mem_cons.mp h2 with h3 | h3
      · subst h3; decide
      rcases List.mem_cons.mp h3 with h4 | h4
      · subst h4; decide
      rcases List.mem_cons.mp h4 with h5 | h5
      · subst h5; decide
      · simp at h5

theorem okJVal_round2 (q : ℚ) : okJVal (round2 q) = true := by
  rw [round2]
  repeat' split
  all_goals rfl

theorem okRecord_recordOf (step : Nat) (ts : String) (c : LogCall)
    (h : okCall (c, ts) = true) : okRecord (recordOf step ts c) = true := by
  cases c with
  | start p m mt =>
    cases m with
    | none =>
      simp only [okCall, Bool.and_eq_true] at h
      rw [recordOf, okRecord]
      simp +decide [okJVal, h.1.1, h.2]
    | some mo =>
      simp only [okCall, Bool.and_eq_true] at h
      rw [recordOf, okRecord]
      simp +decide [okJVal, h.1.1, h.1.2, h.2]
  | resume prev =>
    simp only [okCall, Bool.and_eq_true] at h
    rw [recordOf, okRecord]
    simp +decide [okJVal, h.1, h.2]
  | toolCall tn tid cmd =>
    cases cmd with
    | none =>
      simp only [okCall, Bool.and_eq_true] at h
      rw [recordOf, okRecord]
      simp +decide [okJVal, h.1.1.1, h.1.1.2, h.2]
    | some cm =>
      simp only [okCall, Bool.and_eq_true] at h
      rw [recordOf, okRecord]
      by_cases he : cm.data.isEmpty
      · simp +decide [he, okJVal, h.1.1.1, h.1.1.2, h.2]
      · simp +decide [he, okJVal, h.1.1.1, h.1.1.2, h.2,
          okStringB_truncPreview cm 500 h.1.2]
  | toolResult tid isErr out el =>
    simp only [okCall, Bool.and_eq_true] at h
    cases el with
    | none =>
      rw [recordOf, okRecord]
      simp +decide [okJVal, h.1.1, h.2, okStringB_truncPreview out 500 h.1.2]
    | some q =>
      rw [recordOf, okRecord]
      have hv := okJVal_round2 q
      generalize round2 q = w at hv ⊢
      simp +decide [okJVal, h.1.1, h.2, okStringB_truncPreview out 500 h.1.2]
      exact hv
  | text t =>
    simp only [okCall, Bool.and_eq_true] at h
    rw [recordOf, okRecord]
    simp +decide [okJVal, h.2, okStringB_truncPreview t 500 h.1]
  | done steps el res =>
    simp only [okCall, Bool.and_eq_true] at h
    rw [recordOf, okRecord]
    have hv := okJVal_round2 el
    generalize round2 el = w at hv ⊢
    simp +decide [okJVal, h.2, okStringB_truncPreview res 500 h.1]
    exact hv

theorem recordOf_ne_nil (step : Nat) (ts : String) (c : LogCall) :
    recordOf step ts c ≠ [] := by
  cases c <;> simp [recordOf]

theorem sessionRecords_cons (step : Nat) (c : LogCall) (ts : String)
    (rest : List (LogCall × String)) :
    sessionRecords step ((c, ts) :: rest) =
      recordOf (match c with | .toolCall _ _ _ => step + 1 | _ => step) ts c ::
        sessionRecords (match c with | .toolCall _ _ _ => step + 1 | _ => step) rest := by
  cases c <;> rfl

theorem sessionRecords_ok (calls : List (LogCall × String)) :
    ∀ step, (∀ c ∈ calls, okCall c = true) →
      ∀ r ∈ sessionRecords step calls, okRecord r = true ∧ r ≠ [] := by
  induction calls with
  | nil => intro step _ r hr; simp [sessionRecords] at hr
  | cons cts rest ih =>
    intro step h r hr
    obtain ⟨c, ts⟩ := cts
    rw [sessionRecords_cons] at hr
    rcases List.mem_cons.mp hr with h2 | h2
    · subst h2
      exact ⟨okRecord_recordOf _ ts c (h (c, ts) (by simp)), recordOf_ne_nil _ ts c⟩
    · exact ih _ (fun x hx => h x (List.mem_cons_of_mem _ hx)) r h2

/-- C9: for every sequence of `SessionLogger` append calls (with any
timestamps and step threading, astral characters excluded), `replay_session`
on the written file returns exactly one record per appended call, in append
order, with every persisted field reproduced. -/
theorem C9_session_roundtrip (calls : List (LogCall × String)) (step : Nat)
    (h : ∀ c ∈ calls, okCall c = true) :
    replay_session (renderLog (sessionRecords step calls)) =
      some (sessionRecords step calls) :=
  replay_session_renderLog _ (sessionRecords_ok calls step h)

set_option maxRecDepth 100000 in
theorem C9_session_roundtrip_witness :
    (∀ c ∈ ([(LogCall.start "open settings" (some "sonnet") 30, "2024-01-01T10:00:00"),
      (LogCall.toolCall "Bash" "tool_1" (some "echo hi"), "2024-01-01T10:00:01"),
      (LogCall.toolResult "tool_1" false "hi" (some ((3 : ℚ)/2)), "2024-01-01T10:00:02"),
      (LogCall.done 1 ((5 : ℚ)/2) "ok", "2024-01-01T10:00:03")] : List (LogCall × String)), okCall c = true) ∧
      replay_session (renderLog (sessionRecords 0
        ([(LogCall.start "open settings" (some "sonnet") 30, "2024-01-01T10:00:00"),
      (LogCall.toolCall "Bash" "tool_1" (some "echo hi"), "2024-01-01T10:00:01"),
      (LogCall.toolResult "tool_1" false "hi" (some ((3 : ℚ)/2)), "2024-01-01T10:00:02"),
      (LogCall.done 1 ((5 : ℚ)/2) "ok", "2024-01-01T10:00:03")] : List (LogCall × String)))) =
      some (sessionRecords 0
        ([(LogCall.start "open settings" (some "sonnet") 30, "2024-01-01T10:00:00"),
      (LogCall.toolCall "Bash" "tool_1" (some "echo hi"), "2024-01-01T10:00:01"),
      (LogCall.toolResult "tool_1" false "hi" (some ((3 : ℚ)/2)), "2024-01-01T10:00:02"),
      (LogCall.done 1 ((5 : ℚ)/2) "ok", "2024-01-01T10:00:03")] : List (LogCall × String))) :=
  ⟨by decide, C9_session_roundtrip _ 0 (by decide)⟩

end DesktopAssist
